import Mathlib

/-
Verification model of the `useWebSocket` composable and the store-routing
(Observer) core of the native-websocket-vue3 package.

The composable's source (src/useWebSocket.js) is translated into a small-step
state machine: reactive refs become record fields, the single WebSocket handle
becomes a pair of booleans (`wsLive` = `ws.value !== null`, `wsOpen` =
`readyState === OPEN`), and the host's setTimeout/clearTimeout pair is modelled
faithfully: `trackedArmed` says whether the timer currently referenced by
`reconnectTimeoutId` is still armed, while `armedUntracked` counts timers whose
ids were overwritten by a later `setTimeout` assignment but which remain armed
in the host (overwriting the variable does not cancel the old timer).
A handle displaced by a later `connect()` while still CONNECTING is never
closed by the source, and its handlers (the closures of the `connect()` call
that created it) stay attached: its late open/close/error/message events keep
mutating the shared refs.  The model therefore tracks displaced live handles
(`staleConn` still connecting, `staleOpen` opened after displacement) and
delivers their events too; a stale close drops the `ws.value` reference,
displacing the currently referenced handle in turn.  Handles closed through
`close()` (explicit disconnect) are discarded.
Ghost counters (`scheduled`, `handlesCreated`, `transportSends`) record
externally observable effects: setTimeout calls, `new WebSocket`
constructions, and transport sends.
-/

set_option maxHeartbeats 1600000
set_option maxRecDepth 8000

inductive Status where
  | DISCONNECTED
  | CONNECTING
  | CONNECTED
  | ERROR
deriving DecidableEq, Repr

/-- JSON values, used to model the payloads handled by `JSON.stringify` /
`JSON.parse` in the composable's `send` and `onmessage` paths.  Numbers are
restricted to integers (the integral fragment of JSON numbers). -/
inductive JVal where
  | jnull : JVal
  | jbool : Bool → JVal
  | jnum : Int → JVal
  | jstr : List Char → JVal
  | jarr : List JVal → JVal
  | jobj : List (List Char × JVal) → JVal

/-- The value stored in the composable's `data` ref after a message event:
either a parsed JSON value or the raw text. -/
inductive InData where
  | parsed : JVal → InData
  | raw : List Char → InData

/-- An outbound message handed to `send`: JS `string | object`. -/
inductive OutMsg where
  | text : List Char → OutMsg
  | obj : JVal → OutMsg

/-- Configuration options of `useWebSocket` that the modelled logic reads.
`reconnectAttempts = none` models the default `Infinity`. -/
structure Config where
  autoReconnect : Bool := false
  reconnectAttempts : Option Nat := none
  json : Bool := false

/-- `reconnectCount < reconnectAttempts` (any count is below `Infinity`). -/
def countBelow (n : Nat) : Option Nat → Bool
  | none => true
  | some m => decide (n < m)

structure St where
  wsLive : Bool
  wsOpen : Bool
  isConnected : Bool
  status : Status
  errorSet : Bool
  dataVal : Option InData
  reconnectCount : Nat
  trackedArmed : Bool
  armedUntracked : Nat
  explicitClose : Bool
  scheduled : Nat
  handlesCreated : Nat
  staleConn : Nat
  staleOpen : Nat
  transportSends : Nat

/-- Displaced handles that are still live (never closed): the source keeps
their handlers attached, so their late events still arrive. -/
def St.staleLive (s : St) : Nat := s.staleConn + s.staleOpen

/-- The state before any call: all refs at their initial values. -/
def initSt : St :=
  { wsLive := false, wsOpen := false, isConnected := false,
    status := .DISCONNECTED, errorSet := false, dataVal := none,
    reconnectCount := 0, trackedArmed := false, armedUntracked := 0,
    explicitClose := false, scheduled := 0, handlesCreated := 0,
    staleConn := 0, staleOpen := 0, transportSends := 0 }

/-- `connect()`.  Returns immediately when the current handle reports OPEN;
otherwise clears the explicit-close flag, sets status CONNECTING and
constructs a new WebSocket.  `ctorFails` says whether `new WebSocket` throws:
then the error is recorded, status becomes ERROR and nothing else happens
(in particular `ws.value` keeps its previous value).  On success the previous
(non-open, hence still connecting) handle, if any, is overwritten without
being closed: it stays live, with its handlers attached, but is no longer
referenced (`staleConn`). -/
def connect (s : St) (ctorFails : Bool) : St :=
  if s.wsLive && s.wsOpen then s
  else if ctorFails then
    { s with explicitClose := false, errorSet := true, status := .ERROR }
  else
    { s with explicitClose := false, status := .CONNECTING,
             staleConn := s.staleConn + (if s.wsLive then 1 else 0),
             wsLive := true, wsOpen := false,
             handlesCreated := s.handlesCreated + 1 }

/-- `ws.onopen`: the transport reports open (readyState becomes OPEN) and the
handler sets the reactive state and resets the attempt counter. -/
def onopen (s : St) : St :=
  { s with wsOpen := true, isConnected := true, status := .CONNECTED,
           errorSet := false, reconnectCount := 0 }

/-- `ws.onclose`: the handle is gone; if the close was not explicit, reconnection
is enabled and the counter is below the maximum, the counter is incremented and
a `connect()` call is scheduled (`setTimeout`, overwriting
`reconnectTimeoutId`: a previously armed tracked timer becomes untracked). -/
def onclose (cfg : Config) (s : St) : St :=
  let s1 := { s with isConnected := false, status := .DISCONNECTED,
                     wsLive := false, wsOpen := false }
  if !s.explicitClose && cfg.autoReconnect
      && countBelow s.reconnectCount cfg.reconnectAttempts then
    { s1 with reconnectCount := s.reconnectCount + 1,
              armedUntracked := s.armedUntracked + (if s.trackedArmed then 1 else 0),
              trackedArmed := true,
              scheduled := s.scheduled + 1 }
  else s1

/-- The onclose handler run by a displaced (stale) handle closing: the same
closure as `onclose`, against the shared refs.  `ws.value = null` drops the
reference to the CURRENT handle, which — if live — is itself displaced while
still connecting or open (it is not closed); then the usual reconnect policy
runs.  `dConn`/`dOpen` are the stale counts with the closing handle removed. -/
def oncloseStaleCore (cfg : Config) (s : St) (dConn dOpen : Nat) : St :=
  let s1 := { s with isConnected := false, status := .DISCONNECTED,
                     staleConn := dConn + (if s.wsLive && !s.wsOpen then 1 else 0),
                     staleOpen := dOpen + (if s.wsLive && s.wsOpen then 1 else 0),
                     wsLive := false, wsOpen := false }
  if !s.explicitClose && cfg.autoReconnect
      && countBelow s.reconnectCount cfg.reconnectAttempts then
    { s1 with reconnectCount := s.reconnectCount + 1,
              armedUntracked := s.armedUntracked + (if s.trackedArmed then 1 else 0),
              trackedArmed := true,
              scheduled := s.scheduled + 1 }
  else s1

/-- `ws.onerror`: records the error and sets status ERROR; nothing else. -/
def onerror (s : St) : St :=
  { s with errorSet := true, status := .ERROR }

/-- `disconnect()`: sets the explicit-close flag, cancels the timer referenced
by `reconnectTimeoutId` (and only that one), closes and discards the handle,
and forces the disconnected state. -/
def disconnect (s : St) : St :=
  { s with explicitClose := true, trackedArmed := false,
           wsLive := false, wsOpen := false,
           isConnected := false, status := .DISCONNECTED }

/-- Whether `send` succeeds: the code checks `ws.value` and its readyState. -/
def sendOk (s : St) : Bool := s.wsLive && s.wsOpen

/- ===== JSON codec, modelling the host's JSON.stringify / JSON.parse on the
   values the composable passes through them ===== -/

def lbrace : Char := Char.ofNat 123

def rbrace : Char := Char.ofNat 125

def isDigitCh (c : Char) : Bool := 48 ≤ c.toNat && c.toNat ≤ 57

def digitChar (n : Nat) : Char := Char.ofNat (48 + n)

/-- Decimal digits of `n`, most significant first. -/
def natChars (n : Nat) : List Char :=
  if _h : n < 10 then [digitChar n]
  else natChars (n / 10) ++ [digitChar (n % 10)]
decreasing_by exact Nat.div_lt_self (by omega) (by omega)

def intChars : Int → List Char
  | .ofNat n => natChars n
  | .negSucc m => '-' :: natChars (m + 1)

/-- JSON string escaping of one character (quote and backslash). -/
def escChar (c : Char) : List Char :=
  if c = '"' ∨ c = '\\' then ['\\', c] else [c]

def escChars : List Char → List Char
  | [] => []
  | c :: cs => escChar c ++ escChars cs

mutual

/-- `JSON.stringify` on the modelled value fragment (no added whitespace). -/
def jstringify : JVal → List Char
  | .jnull => ['n', 'u', 'l', 'l']
  | .jbool true => ['t', 'r', 'u', 'e']
  | .jbool false => ['f', 'a', 'l', 's', 'e']
  | .jnum n => intChars n
  | .jstr s => '"' :: (escChars s ++ ['"'])
  | .jarr [] => ['[', ']']
  | .jarr (x :: xs) => '[' :: (jstringify x ++ jarrTail xs)
  | .jobj [] => [lbrace, rbrace]
  | .jobj (kv :: kvs) => lbrace :: (jmember kv ++ jobjTail kvs)

/-- Remaining array elements, each preceded by a comma, then the bracket. -/
def jarrTail : List JVal → List Char
  | [] => [']']
  | x :: xs => ',' :: (jstringify x ++ jarrTail xs)

def jmember : List Char × JVal → List Char
  | (k, v) => '"' :: (escChars k ++ '"' :: ':' :: jstringify v)

def jobjTail : List (List Char × JVal) → List Char
  | [] => [rbrace]
  | kv :: kvs => ',' :: (jmember kv ++ jobjTail kvs)

end

/-- Reads a maximal run of decimal digits, folding them onto `acc`. -/
def readDigits : List Char → Nat → Nat × List Char
  | c :: cs, acc =>
      if isDigitCh c then readDigits cs (acc * 10 + (c.toNat - 48))
      else (acc, c :: cs)
  | [], acc => (acc, [])

def parseNum : List Char → Option (Int × List Char)
  | [] => none
  | c :: cs =>
      if c = '-' then
        match cs with
        | [] => none
        | c2 :: _ =>
            if isDigitCh c2 then
              let p := readDigits cs 0
              some (-(p.1 : Int), p.2)
            else none
      else if isDigitCh c then
        let p := readDigits (c :: cs) 0
        some ((p.1 : Int), p.2)
      else none

/-- Reads a string body up to (and consuming) the closing quote, undoing the
escapes produced by `escChars`. -/
def parseStrBody : List Char → Option (List Char × List Char)
  | [] => none
  | c :: cs =>
      if c = '\\' then
        match cs with
        | [] => none
        | c2 :: cs2 => (parseStrBody cs2).map (fun p => (c2 :: p.1, p.2))
      else if c = '"' then some ([], cs)
      else (parseStrBody cs).map (fun p => (c :: p.1, p.2))

/-- The first character, if any, is not a decimal digit (what follows a
serialised number in well-formed surrounding text). -/
def noDigitHead : List Char → Bool
  | [] => true
  | c :: _ => !isDigitCh c

mutual

/-- Recursive-descent `JSON.parse` (fuelled). -/
def parseVal : Nat → List Char → Option (JVal × List Char)
  | 0, _ => none
  | _ + 1, [] => none
  | fuel + 1, c :: cs =>
      if c = 'n' then
        match cs with
        | 'u' :: 'l' :: 'l' :: rest => some (.jnull, rest)
        | _ => none
      else if c = 't' then
        match cs with
        | 'r' :: 'u' :: 'e' :: rest => some (.jbool true, rest)
        | _ => none
      else if c = 'f' then
        match cs with
        | 'a' :: 'l' :: 's' :: 'e' :: rest => some (.jbool false, rest)
        | _ => none
      else if c = '"' then
        (parseStrBody cs).map (fun p => (.jstr p.1, p.2))
      else if c = '[' then
        match cs with
        | [] => none
        | c2 :: cs2 =>
            if c2 = ']' then some (.jarr [], cs2)
            else (parseElems fuel (c2 :: cs2)).map (fun p => (.jarr p.1, p.2))
      else if c = lbrace then
        match cs with
        | [] => none
        | r :: rest =>
            if r = rbrace then some (.jobj [], rest)
            else (parseMembers fuel (r :: rest)).map (fun p => (.jobj p.1, p.2))
      else if c = '-' || isDigitCh c then
        (parseNum (c :: cs)).map (fun p => (.jnum p.1, p.2))
      else none

/-- Parses a nonempty comma-separated element list and the closing bracket. -/
def parseElems : Nat → List Char → Option (List JVal × List Char)
  | 0, _ => none
  | fuel + 1, cs =>
      match parseVal fuel cs with
      | none => none
      | some (v, rest) =>
          match rest with
          | ',' :: rest2 => (parseElems fuel rest2).map (fun p => (v :: p.1, p.2))
          | ']' :: rest2 => some ([v], rest2)
          | _ => none

/-- Parses a nonempty member list and the closing brace. -/
def parseMembers : Nat → List Char → Option (List (List Char × JVal) × List Char)
  | 0, _ => none
  | fuel + 1, cs =>
      match cs with
      | '"' :: cs1 =>
          match parseStrBody cs1 with
          | none => none
          | some (k, r1) =>
              match r1 with
              | ':' :: r2 =>
                  match parseVal fuel r2 with
                  | none => none
                  | some (v, r3) =>
                      match r3 with
                      | ',' :: r4 =>
                          (parseMembers fuel r4).map (fun p => ((k, v) :: p.1, p.2))
                      | r :: r4 => if r = rbrace then some ([(k, v)], r4) else none
                      | [] => none
              | _ => none
      | _ => none

end

/-- `JSON.parse` on a whole text: must consume the entire input. -/
def parseJson (d : List Char) : Option JVal :=
  match parseVal (d.length + 1) d with
  | some (v, []) => some v
  | _ => none

/-- The `onmessage` handler's treatment of incoming text: under the json
option it tries `JSON.parse` and falls back to the raw data on failure. -/
def decodeData (json : Bool) (d : List Char) : InData :=
  if json then
    match parseJson d with
    | some v => .parsed v
    | none => .raw d
  else .raw d

/-- The payload `send` hands to the transport: objects are stringified under
the json option; otherwise JS string coercion applies. -/
def sendPayload (json : Bool) : OutMsg → List Char
  | .text s => s
  | .obj v =>
      if json then jstringify v
      else "[object Object]".toList

/- ===== Events and the small-step semantics of a `useWebSocket` instance ===== -/

/-- The discrete events a `useWebSocket` instance can experience: the public
calls, the transport callbacks on the current handle, and the firing of a
scheduled reconnect timer (`timerTracked` for the timer currently referenced
by `reconnectTimeoutId`, `timerOld` for a timer whose id was overwritten).
Each connecting event carries whether `new WebSocket` would throw.
The `stale…` events are the callbacks of displaced live handles, which the
source never detaches: `staleOpened` is the open of a displaced connecting
handle, `staleClosedConn`/`staleClosedOpen` the close of a displaced handle
that was still connecting / had opened, `staleErrored` an error on any
displaced live handle, `staleMessage` a message on a displaced open one. -/
inductive Ev where
  | evConnect : Bool → Ev
  | timerTracked : Bool → Ev
  | timerOld : Bool → Ev
  | evDisconnect : Ev
  | evSend : OutMsg → Ev
  | opened : Ev
  | closed : Ev
  | errored : Ev
  | message : List Char → Ev
  | staleOpened : Ev
  | staleClosedConn : Ev
  | staleClosedOpen : Ev
  | staleErrored : Ev
  | staleMessage : List Char → Ev

/-- One step of the instance.  `opened`/`closed`/`errored`/`message` are the
callbacks of the currently referenced handle; the `stale…` events are the
callbacks of displaced live handles, delivered whenever such a handle exists
in the corresponding transport state — they run the very same handler
closures against the shared refs.  A stale open (like any open) does not
touch the referenced handle's `wsLive`/`wsOpen`; a stale close runs the
onclose body, so it drops the `ws.value` reference (displacing the current
handle, if live) and may schedule a reconnect.  A timer only fires while
armed (`clearTimeout` prevents any later firing of a cancelled timer). -/
def step (cfg : Config) (s : St) : Ev → St
  | .evConnect f => connect s f
  | .timerTracked f =>
      if s.trackedArmed then connect { s with trackedArmed := false } f else s
  | .timerOld f =>
      if s.armedUntracked > 0 then
        connect { s with armedUntracked := s.armedUntracked - 1 } f
      else s
  | .evDisconnect => disconnect s
  | .evSend _ =>
      if sendOk s then { s with transportSends := s.transportSends + 1 } else s
  | .opened => if s.wsLive && !s.wsOpen then onopen s else s
  | .closed => if s.wsLive then onclose cfg s else s
  | .errored => if s.wsLive then onerror s else s
  | .message d =>
      if s.wsLive && s.wsOpen then
        { s with dataVal := some (decodeData cfg.json d) }
      else s
  | .staleOpened =>
      if s.staleConn > 0 then
        { s with staleConn := s.staleConn - 1, staleOpen := s.staleOpen + 1,
                 isConnected := true, status := .CONNECTED,
                 errorSet := false, reconnectCount := 0 }
      else s
  | .staleClosedConn =>
      if s.staleConn > 0 then oncloseStaleCore cfg s (s.staleConn - 1) s.staleOpen
      else s
  | .staleClosedOpen =>
      if s.staleOpen > 0 then oncloseStaleCore cfg s s.staleConn (s.staleOpen - 1)
      else s
  | .staleErrored =>
      if s.staleConn + s.staleOpen > 0 then onerror s else s
  | .staleMessage d =>
      if s.staleOpen > 0 then { s with dataVal := some (decodeData cfg.json d) }
      else s

def runEvents (cfg : Config) (s : St) (es : List Ev) : St :=
  es.foldl (step cfg) s

/-- The sequence of values assigned to the `status` ref while `connect` runs
(`CONNECTING` is always written first, then `ERROR` on a throwing
construction). -/
def connectTrace (s : St) (ctorFails : Bool) : List Status :=
  if s.wsLive && s.wsOpen then []
  else if ctorFails then [.CONNECTING, .ERROR] else [.CONNECTING]

/-- The sequence of values assigned to the `status` ref during one step. -/
def stepTrace (s : St) : Ev → List Status
  | .evConnect f => connectTrace s f
  | .timerTracked f => if s.trackedArmed then connectTrace s f else []
  | .timerOld f => if s.armedUntracked > 0 then connectTrace s f else []
  | .evDisconnect => [.DISCONNECTED]
  | .evSend _ => []
  | .opened => if s.wsLive && !s.wsOpen then [.CONNECTED] else []
  | .closed => if s.wsLive then [.DISCONNECTED] else []
  | .errored => if s.wsLive then [.ERROR] else []
  | .message _ => []
  | .staleOpened => if s.staleConn > 0 then [.CONNECTED] else []
  | .staleClosedConn => if s.staleConn > 0 then [.DISCONNECTED] else []
  | .staleClosedOpen => if s.staleOpen > 0 then [.DISCONNECTED] else []
  | .staleErrored => if s.staleConn + s.staleOpen > 0 then [.ERROR] else []
  | .staleMessage _ => []

def traceFrom (cfg : Config) (s : St) : List Ev → List Status
  | [] => []
  | e :: es => stepTrace s e ++ traceFrom cfg (step cfg s e) es

/-- All values the `status` ref takes during a run, initial value included. -/
def statusTrail (cfg : Config) (es : List Ev) : List Status :=
  initSt.status :: traceFrom cfg initSt es

/-- The transition edges named by the specification sentence under check:
DISCONNECTED→CONNECTING→{CONNECTED, ERROR}, CONNECTED→DISCONNECTED. -/
def specEdges : Status → Status → Bool
  | .DISCONNECTED, .CONNECTING => true
  | .CONNECTING, .CONNECTED => true
  | .CONNECTING, .ERROR => true
  | .CONNECTED, .DISCONNECTED => true
  | _, _ => false

/-- The transition edges the code realises on displacement-free runs (no
`connect()` while a handle is still connecting): additionally a transport
error while connected (CONNECTED→ERROR), disconnect/close while connecting
(CONNECTING→DISCONNECTED), and the ways out of ERROR (a fresh connect, a
still-live transport opening or closing, an explicit disconnect).  A
displaced handle's late callbacks escape even this set: a stale open after a
close produces DISCONNECTED→CONNECTED. -/
def codeEdges : Status → Status → Bool
  | .DISCONNECTED, .CONNECTING => true
  | .CONNECTING, .CONNECTED => true
  | .CONNECTING, .ERROR => true
  | .CONNECTING, .DISCONNECTED => true
  | .CONNECTED, .DISCONNECTED => true
  | .CONNECTED, .ERROR => true
  | .ERROR, .CONNECTING => true
  | .ERROR, .CONNECTED => true
  | .ERROR, .DISCONNECTED => true
  | _, _ => false

/-- Number of live (constructed, not yet closed) transport handles. -/
def liveHandles (s : St) : Nat := s.staleLive + (if s.wsLive then 1 else 0)

/-- Events that run `connect()` (a direct call or a firing reconnect timer). -/
def connectish : Ev → Bool
  | .evConnect _ => true
  | .timerTracked _ => true
  | .timerOld _ => true
  | _ => false

/-- Holds when, along the run of `es` from `s`, `connect()` is only ever run
while no handle is live or the live handle is open. -/
def safeRunB (cfg : Config) (s : St) : List Ev → Bool
  | [] => true
  | e :: es =>
      (!connectish e || (!s.wsLive || s.wsOpen)) && safeRunB cfg (step cfg s e) es

/-- An explicit `connect()` call by the consumer. -/
def isExplicitConnect : Ev → Bool
  | .evConnect _ => true
  | _ => false

/- ===== Store routing (Observer / ConnectionManager).  The Observer source
   file is not part of the sources at hand (only its tests and type
   declarations are), so these definitions are modelled from the spec. ===== -/

def startsWithChars : List Char → List Char → Bool
  | [], _ => true
  | _ :: _, [] => false
  | p :: ps, c :: cs => p == c && startsWithChars ps cs

def socketLabelChars : List Char := "SOCKET_".toList

/-- A state sink as classified by the spec: a Committer exposes
commit/dispatch, a Patcher exposes named action methods (listed here) plus a
merge primitive, anything else is Unknown. -/
inductive SinkShape where
  | committer : SinkShape
  | patcher : List (List Char) → SinkShape
  | unknown : SinkShape

/-- One observable call issued on (or about) the sink while routing. -/
inductive SinkCall where
  | commitCall : List Char → SinkCall
  | dispatchCall : List Char → SinkCall
  | actionCall : List Char → SinkCall
  | handlerCall : SinkCall
  | warnCall : SinkCall

/-- The routed payload: a plain lifecycle event, or a message with its text. -/
inductive RPayload where
  | lifecycle : RPayload
  | msgText : List Char → RPayload

def jlookup (k : List Char) : List (List Char × JVal) → Option JVal
  | [] => none
  | (k2, v) :: rest => if k2 = k then some v else jlookup k rest

/-- A top-level string field of a JSON object value. -/
def jstrField (v : JVal) (k : List Char) : Option (List Char) :=
  match v with
  | .jobj m =>
      match jlookup k m with
      | some (.jstr s) => some s
      | _ => none
  | _ => none

def nsKey : List Char := "namespace".toList

def actKey : List Char := "action".toList

def mutKey : List Char := "mutation".toList

/-- The mutation-name mapping: the mapped name for a label, falling back to
the label itself. -/
def mappedName (mm : List (List Char × List Char)) (label : List Char) : List Char :=
  match mm with
  | [] => label
  | (k, v) :: rest => if k = label then v else mappedName rest label

/-- Modelled from the spec: the default routing policy of the missing
Observer source (spec §4.2).  A JSON message carrying `action`+`namespace`
fields makes a Committer dispatch `namespace/action`; `mutation`+`namespace`
makes it commit `namespace/mutation`; otherwise the mapped label is committed
on a Committer or invoked as a same-named action on a Patcher (with a warning
when the Patcher lacks it); Unknown sinks route nowhere. -/
def defaultRoute (shape : SinkShape) (mm : List (List Char × List Char))
    (label : List Char) (p : RPayload) : List SinkCall :=
  match shape with
  | .unknown => []
  | .committer =>
      match p with
      | .msgText d =>
          match parseJson d with
          | some v =>
              match jstrField v nsKey, jstrField v actKey with
              | some ns, some act => [.dispatchCall (ns ++ '/' :: act)]
              | _, _ =>
                  match jstrField v nsKey, jstrField v mutKey with
                  | some ns, some mu => [.commitCall (ns ++ '/' :: mu)]
                  | _, _ => [.commitCall (mappedName mm label)]
          | none => [.commitCall (mappedName mm label)]
      | .lifecycle => [.commitCall (mappedName mm label)]
  | .patcher acts =>
      if mappedName mm label ∈ acts then [.actionCall (mappedName mm label)]
      else [.warnCall]

/-- Modelled from the spec: `passToStore` of the missing Observer source.
Routing is skipped entirely unless the label begins with `SOCKET_`; a
supplied custom handler is deferred to unconditionally; otherwise the default
policy applies. -/
def passToStore (hasCustom : Bool) (shape : SinkShape)
    (mm : List (List Char × List Char)) (label : List Char) (p : RPayload) :
    List SinkCall :=
  if !startsWithChars socketLabelChars label then []
  else if hasCustom then [.handlerCall]
  else defaultRoute shape mm label p

def lblOnClose : List Char := "SOCKET_ONCLOSE".toList

def lblReconnect : List Char := "SOCKET_RECONNECT".toList

def lblReconnectErr : List Char := "SOCKET_RECONNECT_ERROR".toList

/-- The labels routed, the new attempt counter and whether a retry was
scheduled, for one close event. -/
structure ObsClose where
  routed : List (List Char)
  newCount : Nat
  didSchedule : Bool

/-- Modelled from the spec: the close-event handling of the missing Observer
source (spec §4.3).  `SOCKET_ONCLOSE` is always routed; a non-explicit close
with reconnection enabled either schedules a retry (counter below maximum:
increment and route `SOCKET_RECONNECT`) or routes `SOCKET_RECONNECT_ERROR`
and schedules nothing. -/
def observerClose (reconnection explicit : Bool) (maxA : Option Nat)
    (count : Nat) : ObsClose :=
  if !explicit && reconnection && countBelow count maxA then
    { routed := [lblOnClose, lblReconnect], newCount := count + 1,
      didSchedule := true }
  else if !explicit && reconnection then
    { routed := [lblOnClose, lblReconnectErr], newCount := count,
      didSchedule := false }
  else
    { routed := [lblOnClose], newCount := count, didSchedule := false }

/-- Attempt counter and total scheduled retries after `n` consecutive
non-explicit closes on the store-routing path. -/
def observerCloses (reconnection : Bool) (maxA : Option Nat) : Nat → Nat × Nat
  | 0 => (0, 0)
  | n + 1 =>
      let p := observerCloses reconnection maxA n
      let r := observerClose reconnection false maxA p.1
      (r.newCount, p.2 + (if r.didSchedule then 1 else 0))

/- ===== Scenario definitions used by the claims ===== -/

/-- Reconnection enabled with `M` maximum attempts. -/
def c2cfg (M : Nat) : Config :=
  { autoReconnect := true, reconnectAttempts := some M, json := false }

/-- A first connect followed by `k` rounds of close-then-timer-reconnect
(the only way consecutive non-explicit closes arise without an open). -/
def c2pre : Nat → List Ev
  | 0 => [.evConnect false]
  | k + 1 => c2pre k ++ [.closed, .timerTracked false]

/-- The state after the `(n+1)`-th consecutive non-explicit close. -/
def c2state (M n : Nat) : St :=
  runEvents (c2cfg M) initSt (c2pre n ++ [.closed])

/-- The state reached after `connect` and `k` close/reconnect rounds. -/
def stA (k : Nat) : St :=
  { wsLive := true, wsOpen := false, isConnected := false,
    status := .CONNECTING, errorSet := false, dataVal := none,
    reconnectCount := k, trackedArmed := false, armedUntracked := 0,
    explicitClose := false, scheduled := k, handlesCreated := k + 1,
    staleConn := 0, staleOpen := 0, transportSends := 0 }

/-- Reconnection enabled, unbounded attempts. -/
def cfgR : Config := { autoReconnect := true, reconnectAttempts := none, json := false }

/-- Reconnection disabled (the composable's defaults). -/
def cfg0 : Config := { autoReconnect := false, reconnectAttempts := none, json := false }

/-- json mode on. -/
def cfgJ : Config := { autoReconnect := false, reconnectAttempts := none, json := true }

/-- The invariants tying `status` to the referenced handle that hold on every
run, stale-handle callbacks included. -/
def GInv (s : St) : Prop :=
  (s.status = .DISCONNECTED → s.wsLive = false) ∧
  (s.wsOpen = true → s.wsLive = true) ∧
  (s.wsOpen = true → s.status = .CONNECTED ∨ s.status = .ERROR)

/-- The stronger invariant of displacement-free runs: additionally, a
CONNECTED status really means the referenced handle is live and open — a
displaced handle's late open breaks this in general — and no displaced
handle exists. -/
def SafeInv (s : St) : Prop :=
  GInv s ∧
  (s.status = .CONNECTED → s.wsLive = true ∧ s.wsOpen = true ∧ s.isConnected = true) ∧
  s.staleConn = 0 ∧ s.staleOpen = 0

/- ===== Size measures for the JSON round-trip proof ===== -/

mutual

def jsizeV : JVal → Nat
  | .jnull => 1
  | .jbool _ => 1
  | .jnum _ => 1
  | .jstr _ => 1
  | .jarr xs => 1 + jsizeL xs
  | .jobj m => 1 + jsizeM m

def jsizeL : List JVal → Nat
  | [] => 0
  | x :: xs => 1 + jsizeV x + jsizeL xs

def jsizeM : List (List Char × JVal) → Nat
  | [] => 0
  | kv :: m => 1 + jsizeV kv.2 + jsizeM m

end

/- ===================== Theorems ===================== -/

theorem runEvents_cons (cfg : Config) (s : St) (e : Ev) (es : List Ev) :
    runEvents cfg s (e :: es) = runEvents cfg (step cfg s e) es := rfl

theorem runEvents_append (cfg : Config) (s : St) (es1 es2 : List Ev) :
    runEvents cfg s (es1 ++ es2) = runEvents cfg (runEvents cfg s es1) es2 :=
  List.foldl_append _ _ _ _

theorem gInv_initSt : GInv initSt := by
  refine ⟨fun _ => rfl, ?_, ?_⟩ <;> intro h <;> simp [initSt] at h

theorem safeInv_initSt : SafeInv initSt := by
  refine ⟨gInv_initSt, ?_, rfl, rfl⟩
  intro h
  simp [initSt] at h

theorem oncloseStaleCore_proj (cfg : Config) (s : St) (dConn dOpen : Nat) :
    (oncloseStaleCore cfg s dConn dOpen).wsLive = false
    ∧ (oncloseStaleCore cfg s dConn dOpen).wsOpen = false
    ∧ (oncloseStaleCore cfg s dConn dOpen).status = .DISCONNECTED
    ∧ (oncloseStaleCore cfg s dConn dOpen).isConnected = false
    ∧ (oncloseStaleCore cfg s dConn dOpen).handlesCreated = s.handlesCreated
    ∧ (oncloseStaleCore cfg s dConn dOpen).explicitClose = s.explicitClose := by
  unfold oncloseStaleCore
  by_cases hb : (!s.explicitClose && cfg.autoReconnect
      && countBelow s.reconnectCount cfg.reconnectAttempts) = true <;>
    simp [hb]

theorem gInv_connect (s : St) (f : Bool) (h : GInv s) : GInv (connect s f) := by
  obtain ⟨h1, h3, h4⟩ := h
  unfold connect
  split
  · exact ⟨h1, h3, h4⟩
  · split
    · exact ⟨by simp, h3, fun _ => Or.inr rfl⟩
    · exact ⟨by simp, by simp, by simp⟩

theorem gInv_step (cfg : Config) (s : St) (e : Ev) (h : GInv s) :
    GInv (step cfg s e) := by
  obtain ⟨h1, h3, h4⟩ := h
  cases e with
  | evConnect f => exact gInv_connect s f ⟨h1, h3, h4⟩
  | timerTracked f =>
      simp only [step]
      split
      · exact gInv_connect _ f ⟨h1, h3, h4⟩
      · exact ⟨h1, h3, h4⟩
  | timerOld f =>
      simp only [step]
      split
      · exact gInv_connect _ f ⟨h1, h3, h4⟩
      · exact ⟨h1, h3, h4⟩
  | evDisconnect =>
      exact ⟨fun _ => rfl, by simp [step, disconnect], by simp [step, disconnect]⟩
  | evSend m =>
      simp only [step]
      split
      · exact ⟨h1, h3, h4⟩
      · exact ⟨h1, h3, h4⟩
  | opened =>
      simp only [step]
      split
      · next hg =>
          have hg' : s.wsLive = true ∧ s.wsOpen = false := by simpa using hg
          refine ⟨by simp [onopen], fun _ => ?_, fun _ => Or.inl rfl⟩
          simpa [onopen] using hg'.1
      · exact ⟨h1, h3, h4⟩
  | closed =>
      simp only [step]
      split
      · unfold onclose
        split
        · exact ⟨fun _ => rfl, by simp, by simp⟩
        · exact ⟨fun _ => rfl, by simp, by simp⟩
      · exact ⟨h1, h3, h4⟩
  | errored =>
      simp only [step]
      split
      · exact ⟨by simp [onerror], by simpa [onerror] using h3, fun _ => Or.inr rfl⟩
      · exact ⟨h1, h3, h4⟩
  | message d =>
      simp only [step]
      split
      · exact ⟨h1, h3, h4⟩
      · exact ⟨h1, h3, h4⟩
  | staleOpened =>
      simp only [step]
      split
      · exact ⟨by simp, by simpa using h3, fun _ => Or.inl rfl⟩
      · exact ⟨h1, h3, h4⟩
  | staleClosedConn =>
      simp only [step]
      split
      · have hp := oncloseStaleCore_proj cfg s (s.staleConn - 1) s.staleOpen
        exact ⟨fun _ => hp.1, by simp [hp.2.1], by simp [hp.2.1]⟩
      · exact ⟨h1, h3, h4⟩
  | staleClosedOpen =>
      simp only [step]
      split
      · have hp := oncloseStaleCore_proj cfg s s.staleConn (s.staleOpen - 1)
        exact ⟨fun _ => hp.1, by simp [hp.2.1], by simp [hp.2.1]⟩
      · exact ⟨h1, h3, h4⟩
  | staleErrored =>
      simp only [step]
      split
      · exact ⟨by simp [onerror], by simpa [onerror] using h3, fun _ => Or.inr rfl⟩
      · exact ⟨h1, h3, h4⟩
  | staleMessage d =>
      simp only [step]
      split
      · exact ⟨h1, h3, h4⟩
      · exact ⟨h1, h3, h4⟩

theorem gInv_run (cfg : Config) (s : St) (es : List Ev) (h : GInv s) :
    GInv (runEvents cfg s es) := by
  induction es generalizing s with
  | nil => exact h
  | cons e es ih => exact ih _ (gInv_step cfg s e h)

theorem safeInv_connect (s : St) (f : Bool) (h : SafeInv s)
    (hsafe : s.wsLive = false ∨ s.wsOpen = true) : SafeInv (connect s f) := by
  obtain ⟨hg, h2, hc, ho⟩ := h
  refine ⟨gInv_connect s f hg, ?_⟩
  by_cases hcond : (s.wsLive && s.wsOpen) = true
  · simp only [connect, if_pos hcond]
    exact ⟨h2, hc, ho⟩
  · have hl : s.wsLive = false := by
      rcases hsafe with hl | hop
      · exact hl
      · have hlv := hg.2.1 hop
        simp [hlv, hop] at hcond
    cases f <;>
      refine ⟨?_, ?_, ?_⟩ <;> simp [connect, hcond, hl, hc, ho]

theorem safeInv_step (cfg : Config) (s : St) (e : Ev) (h : SafeInv s)
    (hsafe : connectish e = true → (s.wsLive = false ∨ s.wsOpen = true)) :
    SafeInv (step cfg s e) := by
  obtain ⟨hg, h2, hc, ho⟩ := h
  cases e with
  | evConnect f => exact safeInv_connect s f ⟨hg, h2, hc, ho⟩ (hsafe rfl)
  | timerTracked f =>
      simp only [step]
      split
      · exact safeInv_connect _ f ⟨hg, h2, hc, ho⟩ (hsafe rfl)
      · exact ⟨hg, h2, hc, ho⟩
  | timerOld f =>
      simp only [step]
      split
      · exact safeInv_connect _ f ⟨hg, h2, hc, ho⟩ (hsafe rfl)
      · exact ⟨hg, h2, hc, ho⟩
  | evDisconnect =>
      exact ⟨gInv_step cfg s .evDisconnect hg, by simp [step, disconnect], hc, ho⟩
  | evSend m =>
      simp only [step]
      split
      · exact ⟨hg, h2, hc, ho⟩
      · exact ⟨hg, h2, hc, ho⟩
  | opened =>
      simp only [step]
      split
      · next hgd =>
          have hg' : s.wsLive = true ∧ s.wsOpen = false := by simpa using hgd
          refine ⟨⟨by simp [onopen], fun _ => by simpa [onopen] using hg'.1,
                   fun _ => Or.inl rfl⟩,
                  fun _ => ⟨by simpa [onopen] using hg'.1, rfl, rfl⟩, hc, ho⟩
      · exact ⟨hg, h2, hc, ho⟩
  | closed =>
      simp only [step]
      split
      · unfold onclose
        split
        · exact ⟨⟨fun _ => rfl, by simp, by simp⟩, by simp, hc, ho⟩
        · exact ⟨⟨fun _ => rfl, by simp, by simp⟩, by simp, hc, ho⟩
      · exact ⟨hg, h2, hc, ho⟩
  | errored =>
      simp only [step]
      split
      · exact ⟨⟨by simp [onerror], by simpa [onerror] using hg.2.1,
                fun _ => Or.inr rfl⟩, by simp [onerror], hc, ho⟩
      · exact ⟨hg, h2, hc, ho⟩
  | message d =>
      simp only [step]
      split
      · exact ⟨hg, h2, hc, ho⟩
      · exact ⟨hg, h2, hc, ho⟩
  | staleOpened =>
      simp only [step]
      split
      · next hgt => simp [hc] at hgt
      · exact ⟨hg, h2, hc, ho⟩
  | staleClosedConn =>
      simp only [step]
      split
      · next hgt => simp [hc] at hgt
      · exact ⟨hg, h2, hc, ho⟩
  | staleClosedOpen =>
      simp only [step]
      split
      · next hgt => simp [ho] at hgt
      · exact ⟨hg, h2, hc, ho⟩
  | staleErrored =>
      simp only [step]
      split
      · next hgt => simp [hc, ho] at hgt
      · exact ⟨hg, h2, hc, ho⟩
  | staleMessage d =>
      simp only [step]
      split
      · next hgt => simp [ho] at hgt
      · exact ⟨hg, h2, hc, ho⟩

theorem safeInv_run (cfg : Config) (s : St) (es : List Ev) (h : SafeInv s)
    (hsf : safeRunB cfg s es = true) : SafeInv (runEvents cfg s es) := by
  induction es generalizing s with
  | nil => exact h
  | cons e es ih =>
      simp only [safeRunB, Bool.and_eq_true] at hsf
      refine ih (step cfg s e) (safeInv_step cfg s e h ?_) hsf.2
      intro hce
      have h1 := hsf.1
      rw [hce] at h1
      simpa [Bool.or_eq_true, Bool.not_eq_true'] using h1

theorem stepTrace_last (cfg : Config) (s : St) (e : Ev) :
    (s.status :: stepTrace s e).getLast? = some (step cfg s e).status := by
  cases e <;>
    simp only [stepTrace, connectTrace, step, connect, onopen, onclose, onerror,
               disconnect, sendOk, oncloseStaleCore] <;>
    (try split_ifs) <;>
    simp_all [List.getLast?, apply_ite]

theorem chain_connectTrace (s : St) (f : Bool)
    (h2 : s.status = .CONNECTED → s.wsLive = true ∧ s.wsOpen = true ∧ s.isConnected = true) :
    List.Chain' (fun a b => a = b ∨ codeEdges a b = true) (s.status :: connectTrace s f) := by
  unfold connectTrace
  have hne : ¬(s.wsLive && s.wsOpen) = true → s.status ≠ .CONNECTED := by
    intro hg hcst
    obtain ⟨ha, hb, _⟩ := h2 hcst
    simp [ha, hb] at hg
  split_ifs with hg hf
  · simp
  · have := hne hg
    cases hst : s.status <;> simp_all <;> decide
  · have := hne hg
    cases hst : s.status <;> simp_all <;> decide

theorem chain_step (s : St) (e : Ev) (h : SafeInv s) :
    List.Chain' (fun a b => a = b ∨ codeEdges a b = true) (s.status :: stepTrace s e) := by
  obtain ⟨⟨h1, h3, h4⟩, h2, hcz, hoz⟩ := h
  cases e with
  | evConnect f => exact chain_connectTrace s f h2
  | timerTracked f =>
      simp only [stepTrace]
      split
      · exact chain_connectTrace s f h2
      · simp
  | timerOld f =>
      simp only [stepTrace]
      split
      · exact chain_connectTrace s f h2
      · simp
  | evDisconnect =>
      simp only [stepTrace]
      cases hst : s.status <;> simp_all <;> decide
  | evSend m => simp [stepTrace]
  | message d => simp [stepTrace]
  | opened =>
      simp only [stepTrace]
      split
      · next hg =>
          have hg' : s.wsLive = true ∧ s.wsOpen = false := by simpa using hg
          have hnd : s.status ≠ .DISCONNECTED := fun hcst => by
            have := h1 hcst; simp [this] at hg'
          have hnc : s.status ≠ .CONNECTED := fun hcst => by
            have := (h2 hcst).2.1; simp [this] at hg'
          cases hst : s.status <;> simp_all <;> decide
      · simp
  | closed =>
      simp only [stepTrace]
      split
      · next hg =>
          have hnd : s.status ≠ .DISCONNECTED := fun hcst => by
            have := h1 hcst; simp [this] at hg
          cases hst : s.status <;> simp_all <;> decide
      · simp
  | errored =>
      simp only [stepTrace]
      split
      · next hg =>
          have hnd : s.status ≠ .DISCONNECTED := fun hcst => by
            have := h1 hcst; simp [this] at hg
          cases hst : s.status <;> simp_all <;> decide
      · simp
  | staleOpened =>
      simp only [stepTrace]
      split
      · next hgt => simp [hcz] at hgt
      · simp
  | staleClosedConn =>
      simp only [stepTrace]
      split
      · next hgt => simp [hcz] at hgt
      · simp
  | staleClosedOpen =>
      simp only [stepTrace]
      split
      · next hgt => simp [hoz] at hgt
      · simp
  | staleErrored =>
      simp only [stepTrace]
      split
      · next hgt => simp [hcz, hoz] at hgt
      · simp
  | staleMessage d => simp [stepTrace]

theorem chain_traceFrom (cfg : Config) (s : St) (es : List Ev) (h : SafeInv s)
    (hsf : safeRunB cfg s es = true) :
    List.Chain' (fun a b => a = b ∨ codeEdges a b = true)
      (s.status :: traceFrom cfg s es) := by
  induction es generalizing s with
  | nil => simp [traceFrom]
  | cons e es ih =>
      simp only [safeRunB, Bool.and_eq_true] at hsf
      have hesafe : connectish e = true → (s.wsLive = false ∨ s.wsOpen = true) := by
        intro hce
        have h1 := hsf.1
        rw [hce] at h1
        simpa [Bool.or_eq_true, Bool.not_eq_true'] using h1
      have hstep := chain_step s e h
      have hih := ih (step cfg s e) (safeInv_step cfg s e h hesafe) hsf.2
      have hlast := stepTrace_last cfg s e
      have hsplit := List.chain'_cons'.mp hih
      simp only [traceFrom]
      rw [show s.status :: (stepTrace s e ++ traceFrom cfg (step cfg s e) es)
            = (s.status :: stepTrace s e) ++ traceFrom cfg (step cfg s e) es from rfl,
          List.chain'_append]
      refine ⟨hstep, hsplit.2, ?_⟩
      intro x hx y hy
      rw [hlast] at hx
      simp only [Option.mem_def, Option.some.injEq] at hx
      subst hx
      exact hsplit.1 y hy

/-- C1 (counterexample): with the defaults, the run connect–open–error produces
the status trail DISCONNECTED, CONNECTING, CONNECTED, ERROR, whose final step
CONNECTED→ERROR is not among the four transitions the claim allows. -/
theorem c1_cex :
    statusTrail cfg0 [.evConnect false, .opened, .errored]
      = [.DISCONNECTED, .CONNECTING, .CONNECTED, .ERROR]
    ∧ ¬ List.Chain' (fun a b => a = b ∨ specEdges a b = true)
        [.DISCONNECTED, .CONNECTING, .CONNECTED, .ERROR] := by
  refine ⟨rfl, ?_⟩
  simp only [List.chain'_cons, List.chain'_singleton]
  decide

/-- C1 (amended): on displacement-free runs — `connect()` never invoked,
directly or via a firing timer, while a handle is still connecting — the
status ref moves only along `codeEdges` (the claim's four edges plus
CONNECTED→ERROR on a transport error, CONNECTING→DISCONNECTED on a
close/disconnect while connecting, and ERROR→{CONNECTING, CONNECTED,
DISCONNECTED}); on every run, a `connect()` issued while status is
DISCONNECTED writes CONNECTING before any later status; and with a displaced
handle even the relaxed restriction fails: the stale handle's late open after
a close steps DISCONNECTED→CONNECTED, an edge outside `codeEdges`. -/
theorem c1_status_machine (cfg : Config) :
    (∀ es : List Ev, safeRunB cfg initSt es = true →
      List.Chain' (fun a b => a = b ∨ codeEdges a b = true) (statusTrail cfg es))
    ∧ (∀ (es : List Ev) (f : Bool),
        (runEvents cfg initSt es).status = .DISCONNECTED →
        stepTrace (runEvents cfg initSt es) (.evConnect f)
          = .CONNECTING :: (if f then [.ERROR] else []))
    ∧ statusTrail cfg0 [.evConnect false, .evConnect false, .closed, .staleOpened]
        = [.DISCONNECTED, .CONNECTING, .CONNECTING, .DISCONNECTED, .CONNECTED]
    ∧ codeEdges .DISCONNECTED .CONNECTED = false := by
  refine ⟨?_, ?_, rfl, rfl⟩
  · intro es hsf
    exact chain_traceFrom cfg initSt es safeInv_initSt hsf
  · intro es f hD
    have hinv := gInv_run cfg initSt es gInv_initSt
    have hlive : (runEvents cfg initSt es).wsLive = false := hinv.1 hD
    cases f <;> simp [stepTrace, connectTrace, hlive]

/-- C1 witness: the edge restriction on a concrete displacement-free run, and
a fresh connect from the initial (DISCONNECTED) state writing CONNECTING. -/
theorem c1_witness :
    List.Chain' (fun a b => a = b ∨ codeEdges a b = true)
      (statusTrail cfg0 [.evConnect false, .opened, .errored])
    ∧ stepTrace (runEvents cfg0 initSt []) (.evConnect false) = [.CONNECTING] :=
  ⟨(c1_status_machine cfg0).1 [.evConnect false, .opened, .errored] rfl,
   (c1_status_machine cfg0).2.1 [] false rfl⟩

theorem quiet_step (cfg : Config) (s : St) (e : Ev)
    (hl : s.wsLive = false) (ht : s.trackedArmed = false)
    (hu : s.armedUntracked = 0) (hx : s.explicitClose = true)
    (he : isExplicitConnect e = false) :
    (step cfg s e).wsLive = false ∧ (step cfg s e).trackedArmed = false
    ∧ (step cfg s e).armedUntracked = 0 ∧ (step cfg s e).explicitClose = true
    ∧ (step cfg s e).handlesCreated = s.handlesCreated := by
  cases e <;>
    simp_all [step, isExplicitConnect, sendOk, disconnect, onerror,
              oncloseStaleCore, apply_ite]

theorem quiet_run (cfg : Config) (s : St) (es : List Ev)
    (hl : s.wsLive = false) (ht : s.trackedArmed = false)
    (hu : s.armedUntracked = 0) (hx : s.explicitClose = true)
    (hes : ∀ e ∈ es, isExplicitConnect e = false) :
    (runEvents cfg s es).handlesCreated = s.handlesCreated := by
  induction es generalizing s with
  | nil => rfl
  | cons e es ih =>
      obtain ⟨l, t, u, x, hcr⟩ := quiet_step cfg s e hl ht hu hx (hes e (by simp))
      rw [runEvents_cons, ih (step cfg s e) l t u x (fun e' he' => hes e' (by simp [he']))]
      exact hcr

/-- C3 (counterexample): close–connect–close overwrites `reconnectTimeoutId`
while the first reconnect timer is still armed; `disconnect()` clears only the
tracked id, so the orphaned first timer still fires afterwards and creates a
new transport handle with no explicit `connect()` call. -/
theorem c3_cex :
    (runEvents cfgR initSt
        [.evConnect false, .closed, .evConnect false, .closed, .evDisconnect]).armedUntracked = 1
    ∧ (step cfgR (runEvents cfgR initSt
          [.evConnect false, .closed, .evConnect false, .closed, .evDisconnect])
          (.timerOld false)).handlesCreated
      = (runEvents cfgR initSt
          [.evConnect false, .closed, .evConnect false, .closed, .evDisconnect]).handlesCreated
        + 1 :=
  ⟨rfl, rfl⟩

/-- C3 (amended): provided the tracked timer is the only armed one (no armed
timer was orphaned by an id overwrite), `disconnect()` sets the explicit-close
flag, discards the handle, forces DISCONNECTED and cancels the pending timer:
afterwards, no sequence of timer firings or transport callbacks without an
explicit `connect()` ever creates a connection attempt (a new handle). -/
theorem c3_disconnect_cancels (cfg : Config) (s : St) (es : List Ev)
    (hu : s.armedUntracked = 0)
    (hes : ∀ e ∈ es, isExplicitConnect e = false) :
    (runEvents cfg (step cfg s .evDisconnect) es).handlesCreated = s.handlesCreated
    ∧ (step cfg s .evDisconnect).explicitClose = true
    ∧ (step cfg s .evDisconnect).wsLive = false
    ∧ (step cfg s .evDisconnect).status = .DISCONNECTED
    ∧ (step cfg s .evDisconnect).trackedArmed = false := by
  refine ⟨?_, rfl, rfl, rfl, rfl⟩
  exact quiet_run cfg _ es rfl rfl (by simpa [step, disconnect] using hu) rfl hes

/-- C3 witness: a disconnect taken right after a close that armed the (only)
reconnect timer; the timer event and a transport open afterwards create no
handle. -/
theorem c3_witness :
    (runEvents cfgR (step cfgR (runEvents cfgR initSt [.evConnect false, .closed])
        .evDisconnect) [.timerTracked false, .opened]).handlesCreated
      = (runEvents cfgR initSt [.evConnect false, .closed]).handlesCreated :=
  (c3_disconnect_cancels cfgR _ [.timerTracked false, .opened] rfl
    (by intro e he; simp only [List.mem_cons, List.not_mem_nil, or_false] at he
        rcases he with rfl | rfl <;> rfl)).1

theorem stale_connect (s : St) (f : Bool) (h0c : s.staleConn = 0)
    (h0o : s.staleOpen = 0) (hsafe : s.wsLive = false ∨ s.wsOpen = true) :
    (connect s f).staleConn = 0 ∧ (connect s f).staleOpen = 0 := by
  rcases hsafe with h | h
  · cases f <;> simp [connect, h, h0c, h0o]
  · by_cases hl : s.wsLive = true
    · simp [connect, h, hl, h0c, h0o]
    · simp only [Bool.not_eq_true] at hl
      cases f <;> simp [connect, h, hl, h0c, h0o]

theorem stale_step (cfg : Config) (s : St) (e : Ev)
    (h0c : s.staleConn = 0) (h0o : s.staleOpen = 0)
    (hsafe : connectish e = true → (s.wsLive = false ∨ s.wsOpen = true)) :
    (step cfg s e).staleConn = 0 ∧ (step cfg s e).staleOpen = 0 := by
  cases e with
  | evConnect f => exact stale_connect s f h0c h0o (hsafe rfl)
  | timerTracked f =>
      simp only [step]
      split
      · exact stale_connect _ f h0c h0o (hsafe rfl)
      · exact ⟨h0c, h0o⟩
  | timerOld f =>
      simp only [step]
      split
      · exact stale_connect _ f h0c h0o (hsafe rfl)
      · exact ⟨h0c, h0o⟩
  | evDisconnect => simp only [step, disconnect]; exact ⟨h0c, h0o⟩
  | evSend m => simp only [step]; split <;> exact ⟨h0c, h0o⟩
  | opened => simp only [step]; split <;> simp_all [onopen]
  | closed =>
      simp only [step]
      split
      · unfold onclose
        split <;> exact ⟨h0c, h0o⟩
      · exact ⟨h0c, h0o⟩
  | errored => simp only [step]; split <;> simp_all [onerror]
  | message d => simp only [step]; split <;> exact ⟨h0c, h0o⟩
  | staleOpened =>
      simp only [step]
      split
      · next hgt => simp [h0c] at hgt
      · exact ⟨h0c, h0o⟩
  | staleClosedConn =>
      simp only [step]
      split
      · next hgt => simp [h0c] at hgt
      · exact ⟨h0c, h0o⟩
  | staleClosedOpen =>
      simp only [step]
      split
      · next hgt => simp [h0o] at hgt
      · exact ⟨h0c, h0o⟩
  | staleErrored =>
      simp only [step]
      split
      · next hgt => simp [h0c, h0o] at hgt
      · exact ⟨h0c, h0o⟩
  | staleMessage d =>
      simp only [step]
      split
      · next hgt => simp [h0o] at hgt
      · exact ⟨h0c, h0o⟩

theorem safeRunB_split (cfg : Config) (s : St) (p q : List Ev)
    (h : safeRunB cfg s (p ++ q) = true) : safeRunB cfg s p = true := by
  induction p generalizing s with
  | nil => rfl
  | cons e p ih =>
      simp only [List.cons_append, safeRunB, Bool.and_eq_true] at h
      simp only [safeRunB, Bool.and_eq_true]
      exact ⟨h.1, ih _ h.2⟩

theorem stale_run (cfg : Config) (s : St) (es : List Ev)
    (h0c : s.staleConn = 0) (h0o : s.staleOpen = 0)
    (hsafe : safeRunB cfg s es = true) :
    (runEvents cfg s es).staleConn = 0 ∧ (runEvents cfg s es).staleOpen = 0 := by
  induction es generalizing s with
  | nil => exact ⟨h0c, h0o⟩
  | cons e es ih =>
      simp only [safeRunB, Bool.and_eq_true] at hsafe
      obtain ⟨hc2, ho2⟩ := stale_step cfg s e h0c h0o (by
        intro hce
        have h1 := hsafe.1
        rw [hce] at h1
        simpa [Bool.or_eq_true, Bool.not_eq_true'] using h1)
      exact ih (step cfg s e) hc2 ho2 hsafe.2

/-- C5 (counterexample): `connect()` only returns early when the current
handle is OPEN; called while the handle is still CONNECTING it constructs a
second WebSocket and discards the first without closing it — two live handles
at once. -/
theorem c5_cex :
    liveHandles (runEvents cfg0 initSt [.evConnect false, .evConnect false]) = 2
    ∧ (runEvents cfg0 initSt [.evConnect false, .evConnect false]).staleLive = 1 :=
  ⟨rfl, rfl⟩

/-- C5 (amended): as long as `connect()` (directly or via a firing reconnect
timer) only runs while no handle is live or the live handle is open, at most
one transport handle is live at every point of the run. -/
theorem c5_single_handle (cfg : Config) (es p q : List Ev)
    (hpre : p ++ q = es) (hsafe : safeRunB cfg initSt es = true) :
    liveHandles (runEvents cfg initSt p) ≤ 1 := by
  subst hpre
  obtain ⟨h0c, h0o⟩ :=
    stale_run cfg initSt p rfl rfl (safeRunB_split cfg initSt p q hsafe)
  unfold liveHandles St.staleLive
  rw [h0c, h0o]
  split <;> omega

/-- C5 witness: a connect–open–close run never holds two live handles. -/
theorem c5_witness :
    liveHandles (runEvents cfg0 initSt [.evConnect false, .opened]) ≤ 1 :=
  c5_single_handle cfg0 [.evConnect false, .opened, .closed]
    [.evConnect false, .opened] [.closed] rfl rfl

/-- C6: a synchronous `new WebSocket` failure inside `connect()` records the
error, sets status ERROR and returns: no retry is scheduled (timers and the
schedule counter are untouched) and no handle is created. -/
theorem c6_ctor_failure (cfg : Config) (s : St)
    (h : ¬(s.wsLive = true ∧ s.wsOpen = true)) :
    step cfg s (.evConnect true)
      = { s with explicitClose := false, errorSet := true, status := .ERROR }
    ∧ (step cfg s (.evConnect true)).scheduled = s.scheduled
    ∧ (step cfg s (.evConnect true)).trackedArmed = s.trackedArmed
    ∧ (step cfg s (.evConnect true)).armedUntracked = s.armedUntracked
    ∧ (step cfg s (.evConnect true)).handlesCreated = s.handlesCreated := by
  have hg : (s.wsLive && s.wsOpen) = false := by
    cases hl : s.wsLive <;> cases ho : s.wsOpen <;> simp_all
  refine ⟨?_, ?_, ?_, ?_, ?_⟩ <;> simp [step, connect, hg]

/-- C6 witness: construction failure from the initial state. -/
theorem c6_witness :
    step cfg0 initSt (.evConnect true)
      = { initSt with explicitClose := false, errorSet := true, status := .ERROR } :=
  (c6_ctor_failure cfg0 initSt (by simp [initSt])).1

/-- C10: a transport error on a live handle only records the error and sets
status ERROR; isConnected, the handle, the reconnect counter, the timers and
every other field are untouched — in particular isConnected can remain true
while status says ERROR. -/
theorem c10_error_frame (cfg : Config) (s : St) (h : s.wsLive = true) :
    step cfg s .errored = { s with errorSet := true, status := .ERROR } := by
  simp [step, onerror, h]

/-- C10 witness: an error while CONNECTED leaves isConnected true and the
handle open, with status ERROR — status and isConnected disagree. -/
theorem c10_witness :
    (step cfg0 (runEvents cfg0 initSt [.evConnect false, .opened]) .errored).isConnected = true
    ∧ (step cfg0 (runEvents cfg0 initSt [.evConnect false, .opened]) .errored).status = .ERROR
    ∧ (step cfg0 (runEvents cfg0 initSt [.evConnect false, .opened]) .errored).wsLive = true
    ∧ (step cfg0 (runEvents cfg0 initSt [.evConnect false, .opened]) .errored).reconnectCount
      = (runEvents cfg0 initSt [.evConnect false, .opened]).reconnectCount := by
  rw [c10_error_frame cfg0 _ rfl]
  exact ⟨rfl, rfl, rfl, rfl⟩

theorem c2pre_state (M k : Nat) (h : k ≤ M) :
    runEvents (c2cfg M) initSt (c2pre k) = stA k := by
  induction k with
  | zero => rfl
  | succ k ih =>
      have hklt : k < M := h
      simp only [c2pre]
      rw [runEvents_append, ih (Nat.le_of_succ_le h)]
      show step (c2cfg M) (step (c2cfg M) (stA k) .closed) (.timerTracked false)
        = stA (k + 1)
      simp [step, onclose, connect, stA, c2cfg, countBelow, hklt]

theorem c2state_fields (M n : Nat) (h : n ≤ M) :
    (c2state M n).scheduled = min (n + 1) M
    ∧ (c2state M n).reconnectCount = min (n + 1) M
    ∧ (n = M → (c2state M n).trackedArmed = false
        ∧ (c2state M n).armedUntracked = 0) := by
  unfold c2state
  rw [runEvents_append, c2pre_state M n h]
  show (step (c2cfg M) (stA n) .closed).scheduled = min (n + 1) M
    ∧ (step (c2cfg M) (stA n) .closed).reconnectCount = min (n + 1) M
    ∧ (n = M → (step (c2cfg M) (stA n) .closed).trackedArmed = false
        ∧ (step (c2cfg M) (stA n) .closed).armedUntracked = 0)
  rcases Nat.lt_or_ge n M with hlt | hge
  · refine ⟨?_, ?_, fun hnm => absurd hnm (by omega)⟩ <;>
      simp [step, onclose, stA, c2cfg, countBelow, hlt] <;> omega
  · have heq : n = M := le_antisymm h hge
    subst heq
    have hb : countBelow n (some n) = false := by simp [countBelow]
    refine ⟨?_, ?_, fun _ => ⟨?_, ?_⟩⟩ <;>
      simp [step, onclose, stA, c2cfg, hb]

theorem observerCloses_min (M n : Nat) :
    observerCloses true (some M) n = (min n M, min n M) := by
  induction n with
  | zero => simp [observerCloses]
  | succ n ih =>
      simp only [observerCloses, ih]
      by_cases hlt : n < M
      · have hm : min n M = n := by omega
        have hb : countBelow n (some M) = true := by simp [countBelow, hlt]
        simp [observerClose, hm, hb]
        omega
      · have hm : min n M = M := by omega
        have hb : countBelow M (some M) = false := by simp [countBelow]
        simp [observerClose, hm, hb]
        omega

theorem observerClose_exhausted (M : Nat) :
    (observerClose true false (some M) M).didSchedule = false
    ∧ (observerClose true false (some M) M).routed = [lblOnClose, lblReconnectErr] := by
  have hb : countBelow M (some M) = false := by simp [countBelow]
  constructor <;> simp [observerClose, hb]

/-- C2: after `n+1` consecutive non-explicit closes with reconnection enabled
and maximum `M` (realisable for `n ≤ M`), the composable has scheduled exactly
`min (n+1) M` reconnects and holds that counter value; once the counter has
reached `M`, the further close arms no timer.  On the store-routing path
(spec-modelled Observer) the counter and scheduled total equal `min (n+1) M`
as well, and the close after exhaustion routes
`SOCKET_ONCLOSE, SOCKET_RECONNECT_ERROR` and schedules nothing. -/
theorem c2_reconnect_attempts (M n : Nat) (h : n ≤ M) :
    ((c2state M n).scheduled = min (n + 1) M
      ∧ (c2state M n).reconnectCount = min (n + 1) M
      ∧ (n = M → (c2state M n).trackedArmed = false
          ∧ (c2state M n).armedUntracked = 0))
    ∧ observerCloses true (some M) (n + 1) = (min (n + 1) M, min (n + 1) M)
    ∧ (n = M → (observerClose true false (some M) M).didSchedule = false
        ∧ (observerClose true false (some M) M).routed
          = [lblOnClose, lblReconnectErr]) :=
  ⟨c2state_fields M n h, observerCloses_min M (n + 1),
    fun _ => observerClose_exhausted M⟩

/-- C2 witness: `M = 2`, three consecutive closes. -/
theorem c2_witness :
    (c2state 2 2).scheduled = 2
    ∧ observerCloses true (some 2) 3 = (2, 2)
    ∧ (observerClose true false (some 2) 2).routed = [lblOnClose, lblReconnectErr] := by
  obtain ⟨⟨h1, _, _⟩, h2, h3⟩ := c2_reconnect_attempts 2 2 (by omega)
  exact ⟨by simpa using h1, by simpa using h2, (h3 rfl).2⟩

/-- C4 (counterexample): after connect–open–error the status is ERROR (hence
not CONNECTED), yet the handle is still live and open, so `send` transmits on
the transport and returns true. -/
theorem c4_cex :
    (runEvents cfg0 initSt [.evConnect false, .opened, .errored]).status = .ERROR
    ∧ sendOk (runEvents cfg0 initSt [.evConnect false, .opened, .errored]) = true
    ∧ (step cfg0 (runEvents cfg0 initSt [.evConnect false, .opened, .errored])
          (.evSend (.text "hi".toList))).transportSends
      = (runEvents cfg0 initSt [.evConnect false, .opened, .errored]).transportSends + 1 :=
  ⟨rfl, rfl, rfl⟩

/-- C4 (amended): `send` succeeds exactly when the referenced handle is live
and open.  With status DISCONNECTED or CONNECTING it returns false and the
transport's send is never invoked, on every run.  With status CONNECTED it
transmits and returns true on displacement-free runs; in general a displaced
handle's late open can set status CONNECTED while the referenced handle is
still connecting, and `send` then returns false — while after an error while
open (status ERROR) it still transmits. -/
theorem c4_send_guard (cfg : Config) (es : List Ev) (m : OutMsg) :
    ((runEvents cfg initSt es).status = .DISCONNECTED
        ∨ (runEvents cfg initSt es).status = .CONNECTING →
      sendOk (runEvents cfg initSt es) = false
      ∧ (step cfg (runEvents cfg initSt es) (.evSend m)).transportSends
        = (runEvents cfg initSt es).transportSends)
    ∧ (safeRunB cfg initSt es = true →
      (runEvents cfg initSt es).status = .CONNECTED →
      sendOk (runEvents cfg initSt es) = true
      ∧ (step cfg (runEvents cfg initSt es) (.evSend m)).transportSends
        = (runEvents cfg initSt es).transportSends + 1)
    ∧ ((runEvents cfg0 initSt
          [.evConnect false, .evConnect false, .staleOpened]).status = .CONNECTED
      ∧ sendOk (runEvents cfg0 initSt
          [.evConnect false, .evConnect false, .staleOpened]) = false) := by
  obtain ⟨h1, h3, h4⟩ := gInv_run cfg initSt es gInv_initSt
  refine ⟨?_, ?_, rfl, rfl⟩
  · intro hd
    have hnot : sendOk (runEvents cfg initSt es) = false := by
      rcases hd with hd | hd
      · simp [sendOk, h1 hd]
      · cases ho : (runEvents cfg initSt es).wsOpen
        · simp [sendOk, ho]
        · rcases h4 ho with hcs | hcs <;> rw [hd] at hcs <;> simp at hcs
    exact ⟨hnot, by simp [step, hnot]⟩
  · intro hsf hcst
    obtain ⟨_, h2, _, _⟩ := safeInv_run cfg initSt es safeInv_initSt hsf
    obtain ⟨hl, ho2, _⟩ := h2 hcst
    have hok : sendOk (runEvents cfg initSt es) = true := by simp [sendOk, hl, ho2]
    exact ⟨hok, by simp [step, hok]⟩

/-- C4 witness: a send in the initial DISCONNECTED state fails without a
transport send; a send when CONNECTED on a displacement-free run transmits. -/
theorem c4_witness :
    sendOk (runEvents cfg0 initSt []) = false
    ∧ sendOk (runEvents cfg0 initSt [.evConnect false, .opened]) = true :=
  ⟨((c4_send_guard cfg0 [] (.text "hi".toList)).1 (Or.inl rfl)).1,
   ((c4_send_guard cfg0 [.evConnect false, .opened] (.text "hi".toList)).2.1
      rfl rfl).1⟩

/-- C9: routing an event whose label does not begin with `SOCKET_` invokes no
sink method at all — `passToStore` issues no commit, no dispatch, no named
action call (and not even the custom handler). -/
theorem c9_non_socket_skipped (hasCustom : Bool) (shape : SinkShape)
    (mm : List (List Char × List Char)) (label : List Char) (p : RPayload)
    (h : startsWithChars socketLabelChars label = false) :
    passToStore hasCustom shape mm label p = [] := by
  simp [passToStore, h]

/-- C9 witness: the label OTHER_EVENT routed to a Committer sink. -/
theorem c9_witness :
    passToStore false .committer [] "OTHER_EVENT".toList .lifecycle = [] :=
  c9_non_socket_skipped false .committer [] "OTHER_EVENT".toList .lifecycle rfl

theorem natChars_lt (n : Nat) (h : n < 10) : natChars n = [digitChar n] := by
  rw [natChars.eq_def]
  simp [h]

theorem natChars_ge (n : Nat) (h : ¬ n < 10) :
    natChars n = natChars (n / 10) ++ [digitChar (n % 10)] := by
  rw [natChars.eq_def]
  simp [h]
theorem digitChar_isDigit (d : Nat) (h : d < 10) : isDigitCh (digitChar d) = true := by
  interval_cases d <;> decide

theorem digitChar_toNat (d : Nat) (h : d < 10) : (digitChar d).toNat = 48 + d := by
  interval_cases d <;> decide

theorem isDigit_facts (c : Char) (h : isDigitCh c = true) :
    c ≠ 'n' ∧ c ≠ 't' ∧ c ≠ 'f' ∧ c ≠ '"' ∧ c ≠ '[' ∧ c ≠ lbrace ∧ c ≠ ']'
    ∧ c ≠ rbrace ∧ c ≠ ',' ∧ c ≠ '-' ∧ c ≠ '\\' ∧ c ≠ ':' := by
  have h48 : 48 ≤ c.toNat ∧ c.toNat ≤ 57 := by simpa [isDigitCh] using h
  refine ⟨?_, ?_, ?_, ?_, ?_, ?_, ?_, ?_, ?_, ?_, ?_, ?_⟩ <;> rintro rfl <;>
    revert h48 <;> decide

theorem natChars_digits (n : Nat) : ∀ c ∈ natChars n, isDigitCh c = true := by
  induction n using Nat.strong_induction_on with
  | _ n ih =>
      by_cases h : n < 10
      · intro c hc
        rw [natChars_lt n h, List.mem_singleton] at hc
        subst hc
        exact digitChar_isDigit n h
      · intro c hc
        rw [natChars_ge n h, List.mem_append, List.mem_singleton] at hc
        rcases hc with hc | hc
        · exact ih (n / 10) (Nat.div_lt_self (by omega) (by omega)) c hc
        · subst hc
          exact digitChar_isDigit (n % 10) (Nat.mod_lt n (by omega))

theorem natChars_head_digit (n : Nat) :
    ∃ c cs, natChars n = c :: cs ∧ isDigitCh c = true := by
  induction n using Nat.strong_induction_on with
  | _ n ih =>
      by_cases h : n < 10
      · exact ⟨digitChar n, [], natChars_lt n h, digitChar_isDigit n h⟩
      · obtain ⟨c, cs, heq, hc⟩ := ih (n / 10) (Nat.div_lt_self (by omega) (by omega))
        exact ⟨c, cs ++ [digitChar (n % 10)], by rw [natChars_ge n h, heq]; rfl, hc⟩

theorem readDigits_append (ds rest : List Char) (acc : Nat)
    (hds : ∀ c ∈ ds, isDigitCh c = true) (hrest : noDigitHead rest = true) :
    readDigits (ds ++ rest) acc
      = (List.foldl (fun a c => a * 10 + (c.toNat - 48)) acc ds, rest) := by
  induction ds generalizing acc with
  | nil =>
      cases rest with
      | nil => rfl
      | cons c cs =>
          have hc : isDigitCh c = false := by
            simpa [noDigitHead, Bool.not_eq_true'] using hrest
          simp only [List.nil_append, List.foldl_nil]
          rw [readDigits.eq_def]
          simp [hc]
  | cons c ds ih =>
      have hc := hds c (by simp)
      simp only [List.cons_append, List.foldl_cons]
      rw [readDigits.eq_def]
      simp only [hc, if_true]
      exact ih (acc * 10 + (c.toNat - 48)) (fun c' h' => hds c' (by simp [h']))

theorem natChars_foldl (n : Nat) : ∀ acc : Nat,
    List.foldl (fun a c => a * 10 + (c.toNat - 48)) acc (natChars n)
      = acc * 10 ^ (natChars n).length + n := by
  induction n using Nat.strong_induction_on with
  | _ n ih =>
      intro acc
      by_cases h : n < 10
      · rw [natChars_lt n h]
        simp only [List.foldl_cons, List.foldl_nil, List.length_singleton, pow_one]
        rw [digitChar_toNat n h]
        omega
      · rw [natChars_ge n h]
        simp only [List.foldl_append, List.foldl_cons, List.foldl_nil,
                   List.length_append, List.length_singleton]
        rw [ih (n / 10) (Nat.div_lt_self (by omega) (by omega)) acc]
        rw [digitChar_toNat (n % 10) (Nat.mod_lt n (by omega))]
        have hdm : n / 10 * 10 + n % 10 = n := by omega
        have hexp : (acc * 10 ^ (natChars (n / 10)).length + n / 10) * 10
              + (48 + n % 10 - 48)
            = acc * 10 ^ ((natChars (n / 10)).length + 1) + (n / 10 * 10 + n % 10) := by
          rw [pow_succ]
          ring_nf
          omega
        rw [hexp, hdm]

theorem readDigits_natChars (n : Nat) (rest : List Char)
    (hrest : noDigitHead rest = true) :
    readDigits (natChars n ++ rest) 0 = (n, rest) := by
  rw [readDigits_append (natChars n) rest 0 (natChars_digits n) hrest,
      natChars_foldl]
  simp

theorem parseNum_intChars (n : Int) (rest : List Char)
    (hrest : noDigitHead rest = true) :
    parseNum (intChars n ++ rest) = some (n, rest) := by
  cases n with
  | ofNat m =>
      obtain ⟨c, cs, heq, hc⟩ := natChars_head_digit m
      have hfacts := isDigit_facts c hc
      have hread := readDigits_natChars m rest hrest
      rw [heq, List.cons_append] at hread
      show parseNum (natChars m ++ rest) = some ((m : Int), rest)
      rw [heq, List.cons_append, parseNum.eq_def]
      simp [hfacts.2.2.2.2.2.2.2.2.2.1, hc, hread]
  | negSucc m =>
      obtain ⟨c, cs, heq, hc⟩ := natChars_head_digit (m + 1)
      have hread := readDigits_natChars (m + 1) rest hrest
      rw [heq, List.cons_append] at hread
      show parseNum ('-' :: (natChars (m + 1) ++ rest)) = some (.negSucc m, rest)
      rw [heq, List.cons_append, parseNum.eq_def]
      simp [hc, hread, Int.negSucc_eq]

theorem parseStrBody_esc (s rest : List Char) :
    parseStrBody (escChars s ++ '"' :: rest) = some (s, rest) := by
  induction s with
  | nil =>
      show parseStrBody ('"' :: rest) = some ([], rest)
      rw [parseStrBody.eq_def]
      simp
  | cons c cs ih =>
      by_cases hq : c = '"'
      · subst hq
        show parseStrBody ('\\' :: '"' :: (escChars cs ++ '"' :: rest))
          = some ('"' :: cs, rest)
        rw [parseStrBody.eq_def]
        simp [ih]
      · by_cases hb : c = '\\'
        · subst hb
          show parseStrBody ('\\' :: '\\' :: (escChars cs ++ '"' :: rest))
            = some ('\\' :: cs, rest)
          rw [parseStrBody.eq_def]
          simp [ih]
        · have hesc : escChars (c :: cs) ++ '"' :: rest
              = c :: (escChars cs ++ '"' :: rest) := by
            simp [escChars, escChar, hq, hb]
          rw [hesc, parseStrBody.eq_def]
          simp [hq, hb, ih]
theorem jsizeV_pos (v : JVal) : 1 ≤ jsizeV v := by
  cases v <;> simp [jsizeV]

theorem jsizeL_cons (x : JVal) (xs : List JVal) :
    jsizeL (x :: xs) = 1 + jsizeV x + jsizeL xs := by
  rw [jsizeL]

theorem jsizeM_cons (kv : List Char × JVal) (m : List (List Char × JVal)) :
    jsizeM (kv :: m) = 1 + jsizeV kv.2 + jsizeM m := by
  rw [jsizeM]

theorem jsizeL_mem (x : JVal) (xs : List JVal) (h : x ∈ xs) :
    jsizeV x < 1 + jsizeL xs := by
  induction xs with
  | nil => simp at h
  | cons y ys ih =>
      rcases List.mem_cons.mp h with rfl | h
      · rw [jsizeL_cons]; omega
      · have := ih h; rw [jsizeL_cons]; omega

theorem jsizeM_mem (kv : List Char × JVal) (m : List (List Char × JVal)) (h : kv ∈ m) :
    jsizeV kv.2 < 1 + jsizeM m := by
  induction m with
  | nil => simp at h
  | cons kv2 m2 ih =>
      rcases List.mem_cons.mp h with rfl | h
      · rw [jsizeM_cons]; omega
      · have := ih h; rw [jsizeM_cons]; omega

theorem jval_ind (P : JVal → Prop)
    (hnull : P .jnull) (hbool : ∀ b, P (.jbool b)) (hnum : ∀ n, P (.jnum n))
    (hstr : ∀ s, P (.jstr s))
    (harr : ∀ xs, (∀ x ∈ xs, P x) → P (.jarr xs))
    (hobj : ∀ m, (∀ kv ∈ m, P kv.2) → P (.jobj m)) : ∀ v, P v := by
  have key : ∀ k v, jsizeV v ≤ k → P v := by
    intro k
    induction k with
    | zero =>
        intro v hv
        have := jsizeV_pos v
        omega
    | succ k ih =>
        intro v hv
        cases v with
        | jnull => exact hnull
        | jbool b => exact hbool b
        | jnum n => exact hnum n
        | jstr s => exact hstr s
        | jarr xs =>
            refine harr xs (fun x hx => ih x ?_)
            have h1 := jsizeL_mem x xs hx
            have h2 : jsizeV (.jarr xs) = 1 + jsizeL xs := by rw [jsizeV]
            omega
        | jobj m =>
            refine hobj m (fun kv hkv => ih kv.2 ?_)
            have h1 := jsizeM_mem kv m hkv
            have h2 : jsizeV (.jobj m) = 1 + jsizeM m := by rw [jsizeV]
            omega
  exact fun v => key (jsizeV v) v le_rfl

theorem jstringify_head (v : JVal) :
    ∃ c cs, jstringify v = c :: cs ∧ c ≠ ']' := by
  cases v with
  | jnull => exact ⟨'n', _, rfl, by decide⟩
  | jbool b =>
      cases b
      · exact ⟨'f', _, rfl, by decide⟩
      · exact ⟨'t', _, rfl, by decide⟩
  | jnum n =>
      cases n with
      | ofNat m =>
          obtain ⟨c, cs, heq, hc⟩ := natChars_head_digit m
          exact ⟨c, cs, by rw [show jstringify (.jnum (.ofNat m)) = natChars m from rfl, heq],
                 (isDigit_facts c hc).2.2.2.2.2.2.1⟩
      | negSucc m => exact ⟨'-', _, rfl, by decide⟩
  | jstr s => exact ⟨'"', _, rfl, by decide⟩
  | jarr xs =>
      cases xs
      · exact ⟨'[', _, rfl, by decide⟩
      · exact ⟨'[', _, rfl, by decide⟩
  | jobj m =>
      cases m
      · exact ⟨lbrace, _, rfl, by decide⟩
      · exact ⟨lbrace, _, rfl, by decide⟩
theorem jarrTail_nil : jarrTail [] = [']'] := by rw [jarrTail]

theorem jarrTail_cons (x : JVal) (xs : List JVal) :
    jarrTail (x :: xs) = ',' :: (jstringify x ++ jarrTail xs) := by rw [jarrTail]

theorem jobjTail_nil : jobjTail [] = [rbrace] := by rw [jobjTail]

theorem jobjTail_cons (kv : List Char × JVal) (kvs : List (List Char × JVal)) :
    jobjTail (kv :: kvs) = ',' :: (jmember kv ++ jobjTail kvs) := by rw [jobjTail]

theorem jmember_eq (k : List Char) (v : JVal) :
    jmember (k, v) = '"' :: (escChars k ++ '"' :: ':' :: jstringify v) := by rw [jmember]

theorem jstringify_num (n : Int) : jstringify (.jnum n) = intChars n := by
  rw [jstringify]

theorem jstringify_arr_cons (x : JVal) (xs : List JVal) :
    jstringify (.jarr (x :: xs)) = '[' :: (jstringify x ++ jarrTail xs) := by
  rw [jstringify]

theorem jstringify_obj_cons (kv : List Char × JVal) (kvs : List (List Char × JVal)) :
    jstringify (.jobj (kv :: kvs)) = lbrace :: (jmember kv ++ jobjTail kvs) := by
  rw [jstringify]

theorem parseElems_ok (xs : List JVal) : ∀ (x : JVal),
    (∀ y ∈ x :: xs, ∀ f r, jsizeV y ≤ f → noDigitHead r = true →
        parseVal f (jstringify y ++ r) = some (y, r)) →
    ∀ fuel rest, 1 + jsizeV x + jsizeL xs ≤ fuel → noDigitHead rest = true →
    parseElems fuel (jstringify x ++ (jarrTail xs ++ rest)) = some (x :: xs, rest) := by
  induction xs with
  | nil =>
      intro x hP fuel rest hf hr
      have hx := jsizeV_pos x
      cases fuel with
      | zero => omega
      | succ f =>
          have hnd : noDigitHead (jarrTail [] ++ rest) = true := by
            rw [jarrTail_nil]
            rfl
          have hv := hP x (by simp) f (jarrTail [] ++ rest) (by omega) hnd
          show (match parseVal f (jstringify x ++ (jarrTail [] ++ rest)) with
            | none => none
            | some (v, rest) =>
                match rest with
                | ',' :: rest2 => (parseElems f rest2).map (fun p => (v :: p.1, p.2))
                | ']' :: rest2 => some ([v], rest2)
                | _ => none) = some ([x], rest)
          rw [hv, jarrTail_nil]
          rfl
  | cons y ys ih =>
      intro x hP fuel rest hf hr
      have hx := jsizeV_pos x
      have hy := jsizeV_pos y
      have hsL := jsizeL_cons y ys
      cases fuel with
      | zero => omega
      | succ f =>
          have hnd : noDigitHead (jarrTail (y :: ys) ++ rest) = true := by
            rw [jarrTail_cons]
            rfl
          have hv := hP x (by simp) f (jarrTail (y :: ys) ++ rest) (by omega) hnd
          show (match parseVal f (jstringify x ++ (jarrTail (y :: ys) ++ rest)) with
            | none => none
            | some (v, rest) =>
                match rest with
                | ',' :: rest2 => (parseElems f rest2).map (fun p => (v :: p.1, p.2))
                | ']' :: rest2 => some ([v], rest2)
                | _ => none) = some (x :: y :: ys, rest)
          rw [hv, jarrTail_cons]
          show (parseElems f ((jstringify y ++ jarrTail ys) ++ rest)).map
              (fun p => (x :: p.1, p.2)) = some (x :: y :: ys, rest)
          rw [List.append_assoc,
              ih y (fun z hz => hP z (List.mem_cons_of_mem x hz)) f rest (by omega) hr]
          rfl

theorem parseMembers_ok (m : List (List Char × JVal)) : ∀ (k : List Char) (v : JVal),
    (∀ kv ∈ (k, v) :: m, ∀ f r, jsizeV kv.2 ≤ f → noDigitHead r = true →
        parseVal f (jstringify kv.2 ++ r) = some (kv.2, r)) →
    ∀ fuel rest, 1 + jsizeV v + jsizeM m ≤ fuel → noDigitHead rest = true →
    parseMembers fuel (jmember (k, v) ++ (jobjTail m ++ rest))
      = some ((k, v) :: m, rest) := by
  induction m with
  | nil =>
      intro k v hP fuel rest hf hr
      have hvpos := jsizeV_pos v
      cases fuel with
      | zero => omega
      | succ f =>
          have hnd : noDigitHead (jobjTail [] ++ rest) = true := by
            rw [jobjTail_nil]
            rfl
          have hv := hP (k, v) (by simp) f (jobjTail [] ++ rest)
            (by show jsizeV v ≤ f; omega) hnd
          have hin : jmember (k, v) ++ (jobjTail [] ++ rest)
              = '"' :: (escChars k ++ '"' :: ':'
                  :: (jstringify v ++ (jobjTail [] ++ rest))) := by
            rw [jmember_eq]
            simp [List.append_assoc]
          rw [hin]
          show (match parseStrBody (escChars k ++ '"' :: ':'
              :: (jstringify v ++ (jobjTail [] ++ rest))) with
            | none => none
            | some (k, r1) =>
                match r1 with
                | ':' :: r2 =>
                    match parseVal f r2 with
                    | none => none
                    | some (v, r3) =>
                        match r3 with
                        | ',' :: r4 =>
                            (parseMembers f r4).map (fun p => ((k, v) :: p.1, p.2))
                        | r :: r4 => if r = rbrace then some ([(k, v)], r4) else none
                        | [] => none
                | _ => none) = some ([(k, v)], rest)
          rw [parseStrBody_esc k (':' :: (jstringify v ++ (jobjTail [] ++ rest)))]
          show (match parseVal f (jstringify v ++ (jobjTail [] ++ rest)) with
            | none => none
            | some (v2, r3) =>
                match r3 with
                | ',' :: r4 =>
                    (parseMembers f r4).map (fun p => ((k, v2) :: p.1, p.2))
                | r :: r4 => if r = rbrace then some ([(k, v2)], r4) else none
                | [] => none) = some ([(k, v)], rest)
          rw [hv, jobjTail_nil]
          rfl
  | cons kv2 m2 ih =>
      intro k v hP fuel rest hf hr
      obtain ⟨k2, v2⟩ := kv2
      have hvpos := jsizeV_pos v
      have hv2pos := jsizeV_pos v2
      have hsM := jsizeM_cons (k2, v2) m2
      have hsM2 : jsizeV ((k2, v2) : List Char × JVal).2 = jsizeV v2 := rfl
      cases fuel with
      | zero => omega
      | succ f =>
          have hnd : noDigitHead (jobjTail ((k2, v2) :: m2) ++ rest) = true := by
            rw [jobjTail_cons]
            rfl
          have hv := hP (k, v) (by simp) f (jobjTail ((k2, v2) :: m2) ++ rest)
            (by show jsizeV v ≤ f; omega) hnd
          have hin : jmember (k, v) ++ (jobjTail ((k2, v2) :: m2) ++ rest)
              = '"' :: (escChars k ++ '"' :: ':'
                  :: (jstringify v ++ (jobjTail ((k2, v2) :: m2) ++ rest))) := by
            rw [jmember_eq]
            simp [List.append_assoc]
          rw [hin]
          show (match parseStrBody (escChars k ++ '"' :: ':'
              :: (jstringify v ++ (jobjTail ((k2, v2) :: m2) ++ rest))) with
            | none => none
            | some (k, r1) =>
                match r1 with
                | ':' :: r2 =>
                    match parseVal f r2 with
                    | none => none
                    | some (v, r3) =>
                        match r3 with
                        | ',' :: r4 =>
                            (parseMembers f r4).map (fun p => ((k, v) :: p.1, p.2))
                        | r :: r4 => if r = rbrace then some ([(k, v)], r4) else none
                        | [] => none
                | _ => none) = some ((k, v) :: (k2, v2) :: m2, rest)
          rw [parseStrBody_esc k
              (':' :: (jstringify v ++ (jobjTail ((k2, v2) :: m2) ++ rest)))]
          show (match parseVal f (jstringify v ++ (jobjTail ((k2, v2) :: m2) ++ rest)) with
            | none => none
            | some (v3, r3) =>
                match r3 with
                | ',' :: r4 =>
                    (parseMembers f r4).map (fun p => ((k, v3) :: p.1, p.2))
                | r :: r4 => if r = rbrace then some ([(k, v3)], r4) else none
                | [] => none) = some ((k, v) :: (k2, v2) :: m2, rest)
          rw [hv, jobjTail_cons]
          show (parseMembers f ((jmember (k2, v2) ++ jobjTail m2) ++ rest)).map
              (fun p => ((k, v) :: p.1, p.2)) = some ((k, v) :: (k2, v2) :: m2, rest)
          rw [List.append_assoc,
              ih k2 v2 (fun z hz => hP z (List.mem_cons_of_mem (k, v) hz)) f rest
                (by omega) hr]
          rfl

theorem digit_char_cases (c : Char) (hc : isDigitCh c = true) :
    c = '0' ∨ c = '1' ∨ c = '2' ∨ c = '3' ∨ c = '4' ∨ c = '5' ∨ c = '6' ∨ c = '7'
    ∨ c = '8' ∨ c = '9' := by
  have h48 : 48 ≤ c.toNat ∧ c.toNat ≤ 57 := by simpa [isDigitCh] using hc
  obtain ⟨hlo, hhi⟩ := h48
  have hc10 : c.toNat = 48 ∨ c.toNat = 49 ∨ c.toNat = 50 ∨ c.toNat = 51
      ∨ c.toNat = 52 ∨ c.toNat = 53 ∨ c.toNat = 54 ∨ c.toNat = 55
      ∨ c.toNat = 56 ∨ c.toNat = 57 := by omega
  have hofn := (Char.ofNat_toNat c).symm
  rcases hc10 with h | h | h | h | h | h | h | h | h | h <;> rw [h] at hofn <;>
    subst hofn <;> decide

theorem parseVal_digit_or_minus (f : Nat) (c : Char) (cs : List Char)
    (hc : c = '-' ∨ isDigitCh c = true) :
    parseVal (f + 1) (c :: cs)
      = (parseNum (c :: cs)).map (fun p => (JVal.jnum p.1, p.2)) := by
  rcases hc with rfl | hc
  · rfl
  · rcases digit_char_cases c hc with rfl | rfl | rfl | rfl | rfl | rfl | rfl
      | rfl | rfl | rfl <;> rfl

theorem parseVal_stringify (v : JVal) : ∀ (fuel : Nat) (rest : List Char),
    jsizeV v ≤ fuel → noDigitHead rest = true →
    parseVal fuel (jstringify v ++ rest) = some (v, rest) := by
  induction v using jval_ind with
  | hnull =>
      intro fuel rest hf hr
      have h1 := jsizeV_pos .jnull
      cases fuel with
      | zero => omega
      | succ f =>
          rw [show jstringify .jnull = ['n', 'u', 'l', 'l'] from by rw [jstringify]]
          rfl
  | hbool b =>
      intro fuel rest hf hr
      have h1 := jsizeV_pos (.jbool b)
      cases fuel with
      | zero => omega
      | succ f =>
          cases b
          · rw [show jstringify (.jbool false) = ['f', 'a', 'l', 's', 'e'] from by
              rw [jstringify]]
            rfl
          · rw [show jstringify (.jbool true) = ['t', 'r', 'u', 'e'] from by
              rw [jstringify]]
            rfl
  | hnum n =>
      intro fuel rest hf hr
      have h1 := jsizeV_pos (.jnum n)
      cases fuel with
      | zero => omega
      | succ f =>
          rw [jstringify_num]
          cases n with
          | ofNat mm =>
              obtain ⟨c, cs, heq, hc⟩ := natChars_head_digit mm
              have hpn := parseNum_intChars (.ofNat mm) rest hr
              rw [show intChars (.ofNat mm) = natChars mm from rfl, heq,
                  List.cons_append,
                  parseVal_digit_or_minus f c (cs ++ rest) (Or.inr hc),
                  ← List.cons_append, ← heq,
                  show natChars mm = intChars (.ofNat mm) from rfl, hpn]
              rfl
          | negSucc mm =>
              have hpn := parseNum_intChars (.negSucc mm) rest hr
              rw [show intChars (.negSucc mm) = '-' :: natChars (mm + 1) from rfl,
                  List.cons_append,
                  parseVal_digit_or_minus f '-' (natChars (mm + 1) ++ rest) (Or.inl rfl),
                  ← List.cons_append,
                  show '-' :: natChars (mm + 1) = intChars (.negSucc mm) from rfl, hpn]
              rfl
  | hstr s =>
      intro fuel rest hf hr
      have h1 := jsizeV_pos (.jstr s)
      cases fuel with
      | zero => omega
      | succ f =>
          have hin : jstringify (.jstr s) ++ rest = '"' :: (escChars s ++ '"' :: rest) := by
            rw [show jstringify (.jstr s) = '"' :: (escChars s ++ ['"']) from by
              rw [jstringify]]
            simp
          rw [hin]
          show (parseStrBody (escChars s ++ '"' :: rest)).map
              (fun p => (JVal.jstr p.1, p.2)) = some (.jstr s, rest)
          rw [parseStrBody_esc]
          rfl
  | harr xs hxs =>
      intro fuel rest hf hr
      cases xs with
      | nil =>
          have h1 := jsizeV_pos (.jarr [])
          cases fuel with
          | zero => omega
          | succ f =>
              rw [show jstringify (.jarr []) = ['[', ']'] from by rw [jstringify]]
              rfl
      | cons x xs2 =>
          have hsz : jsizeV (.jarr (x :: xs2)) = 1 + jsizeL (x :: xs2) := by rw [jsizeV]
          have hsz2 := jsizeL_cons x xs2
          have hx := jsizeV_pos x
          cases fuel with
          | zero => omega
          | succ f =>
              obtain ⟨c, cs', hceq, hcne⟩ := jstringify_head x
              have hin : jstringify (.jarr (x :: xs2)) ++ rest
                  = '[' :: (jstringify x ++ (jarrTail xs2 ++ rest)) := by
                rw [jstringify_arr_cons]
                simp
              rw [hin]
              show (match jstringify x ++ (jarrTail xs2 ++ rest) with
                | [] => none
                | c2 :: cs2 =>
                    if c2 = ']' then some (JVal.jarr [], cs2)
                    else (parseElems f (c2 :: cs2)).map (fun p => (JVal.jarr p.1, p.2)))
                  = some (.jarr (x :: xs2), rest)
              rw [hceq, List.cons_append]
              show (if c = ']' then some (JVal.jarr [], cs' ++ (jarrTail xs2 ++ rest))
                  else (parseElems f (c :: (cs' ++ (jarrTail xs2 ++ rest)))).map
                    (fun p => (JVal.jarr p.1, p.2))) = some (.jarr (x :: xs2), rest)
              rw [if_neg hcne, ← List.cons_append, ← hceq,
                  parseElems_ok xs2 x hxs f rest (by omega) hr]
              rfl
  | hobj m hm =>
      intro fuel rest hf hr
      cases m with
      | nil =>
          have h1 := jsizeV_pos (.jobj [])
          cases fuel with
          | zero => omega
          | succ f =>
              rw [show jstringify (.jobj []) = [lbrace, rbrace] from by rw [jstringify]]
              rfl
      | cons kv m2 =>
          obtain ⟨k1, v1⟩ := kv
          have hsz : jsizeV (.jobj ((k1, v1) :: m2)) = 1 + jsizeM ((k1, v1) :: m2) := by
            rw [jsizeV]
          have hsz2 := jsizeM_cons (k1, v1) m2
          have hsz3 : jsizeV ((k1, v1) : List Char × JVal).2 = jsizeV v1 := rfl
          have hv1 := jsizeV_pos v1
          cases fuel with
          | zero => omega
          | succ f =>
              have hin : jstringify (.jobj ((k1, v1) :: m2)) ++ rest
                  = lbrace :: (jmember (k1, v1) ++ (jobjTail m2 ++ rest)) := by
                rw [jstringify_obj_cons]
                simp
              rw [hin, jmember_eq, List.cons_append]
              show (parseMembers f ('"' :: ((escChars k1 ++ '"' :: ':' :: jstringify v1)
                    ++ (jobjTail m2 ++ rest)))).map (fun p => (JVal.jobj p.1, p.2))
                  = some (.jobj ((k1, v1) :: m2), rest)
              rw [← List.cons_append, ← jmember_eq,
                  parseMembers_ok m2 k1 v1 hm f rest (by omega) hr]
              rfl

theorem jstringify_len (v : JVal) : jsizeV v ≤ (jstringify v).length := by
  induction v using jval_ind with
  | hnull =>
      rw [show jstringify .jnull = ['n', 'u', 'l', 'l'] from by rw [jstringify],
          show jsizeV .jnull = 1 from by rw [jsizeV]]
      simp
  | hbool b =>
      rw [show jsizeV (.jbool b) = 1 from by rw [jsizeV]]
      cases b
      · rw [show jstringify (.jbool false) = ['f', 'a', 'l', 's', 'e'] from by
          rw [jstringify]]
        simp
      · rw [show jstringify (.jbool true) = ['t', 'r', 'u', 'e'] from by
          rw [jstringify]]
        simp
  | hnum n =>
      rw [show jsizeV (.jnum n) = 1 from by rw [jsizeV], jstringify_num]
      cases n with
      | ofNat mm =>
          obtain ⟨c, cs, heq, _⟩ := natChars_head_digit mm
          rw [show intChars (.ofNat mm) = natChars mm from rfl, heq]
          simp only [List.length_cons]
          omega
      | negSucc mm =>
          rw [show intChars (.negSucc mm) = '-' :: natChars (mm + 1) from rfl]
          simp only [List.length_cons]
          omega
  | hstr s =>
      rw [show jsizeV (.jstr s) = 1 from by rw [jsizeV],
          show jstringify (.jstr s) = '"' :: (escChars s ++ ['"']) from by
            rw [jstringify]]
      simp only [List.length_cons]
      omega
  | harr xs hxs =>
      have htail : ∀ ys : List JVal, (∀ x ∈ ys, jsizeV x ≤ (jstringify x).length) →
          1 + jsizeL ys ≤ (jarrTail ys).length := by
        intro ys
        induction ys with
        | nil =>
            intro _
            rw [jarrTail_nil, show jsizeL ([] : List JVal) = 0 from by rw [jsizeL]]
            simp
        | cons y ys ih2 =>
            intro hmem
            rw [jarrTail_cons, jsizeL_cons]
            have h1 := hmem y (by simp)
            have h2 := ih2 (fun z hz => hmem z (by simp [hz]))
            simp only [List.length_cons, List.length_append]
            omega
      cases xs with
      | nil =>
          rw [show jstringify (.jarr []) = ['[', ']'] from by rw [jstringify],
              show jsizeV (.jarr []) = 1 + jsizeL [] from by rw [jsizeV],
              show jsizeL ([] : List JVal) = 0 from by rw [jsizeL]]
          simp
      | cons x xs2 =>
          rw [jstringify_arr_cons,
              show jsizeV (.jarr (x :: xs2)) = 1 + jsizeL (x :: xs2) from by
                rw [jsizeV],
              jsizeL_cons]
          have h1 := hxs x (by simp)
          have h2 := htail xs2 (fun z hz => hxs z (by simp [hz]))
          simp only [List.length_cons, List.length_append]
          omega
  | hobj m hm =>
      have htail : ∀ ms : List (List Char × JVal),
          (∀ kv ∈ ms, jsizeV kv.2 ≤ (jstringify kv.2).length) →
          1 + jsizeM ms ≤ (jobjTail ms).length := by
        intro ms
        induction ms with
        | nil =>
            intro _
            rw [jobjTail_nil,
                show jsizeM ([] : List (List Char × JVal)) = 0 from by rw [jsizeM]]
            simp
        | cons kv ms2 ih2 =>
            intro hmem
            obtain ⟨k, v⟩ := kv
            rw [jobjTail_cons, jsizeM_cons, jmember_eq]
            have h1 := hmem (k, v) (by simp)
            have h2 := ih2 (fun z hz => hmem z (by simp [hz]))
            simp only [List.length_cons, List.length_append] at h1 h2 ⊢
            omega
      cases m with
      | nil =>
          rw [show jstringify (.jobj []) = [lbrace, rbrace] from by rw [jstringify],
              show jsizeV (.jobj []) = 1 + jsizeM [] from by rw [jsizeV],
              show jsizeM ([] : List (List Char × JVal)) = 0 from by rw [jsizeM]]
          simp
      | cons kv m2 =>
          obtain ⟨k, v⟩ := kv
          rw [jstringify_obj_cons,
              show jsizeV (.jobj ((k, v) :: m2)) = 1 + jsizeM ((k, v) :: m2) from by
                rw [jsizeV],
              jsizeM_cons, jmember_eq]
          have h1 := hm (k, v) (by simp)
          have h2 := htail m2 (fun z hz => hm z (by simp [hz]))
          simp only [List.length_cons, List.length_append] at h1 h2 ⊢
          omega

theorem parseJson_stringify (v : JVal) : parseJson (jstringify v) = some v := by
  have hlen := jstringify_len v
  have h := parseVal_stringify v ((jstringify v).length + 1) [] (by omega) rfl
  rw [List.append_nil] at h
  unfold parseJson
  rw [h]

/-- C7: under the json option `send` serialises a structured value with
JSON.stringify, and the message handler's JSON.parse of the produced text
yields a value deep-equal to the original: the message step stores exactly
the sent structured value. -/
theorem c7_json_roundtrip (v : JVal) :
    sendPayload true (.obj v) = jstringify v
    ∧ decodeData true (jstringify v) = .parsed v
    ∧ ∀ (cfg : Config) (s : St), cfg.json = true → s.wsLive = true →
        s.wsOpen = true →
        step cfg s (.message (sendPayload true (.obj v)))
          = { s with dataVal := some (.parsed v) } := by
  have hp := parseJson_stringify v
  refine ⟨rfl, by simp [decodeData, hp], ?_⟩
  intro cfg s hj hl ho
  simp [step, hl, ho, sendPayload, decodeData, hj, hp]

/-- C7 witness: the object with one field a = 1, sent and received while
connected in json mode. -/
theorem c7_witness :
    step cfgJ (runEvents cfgJ initSt [.evConnect false, .opened])
        (.message (sendPayload true (.obj (.jobj [("a".toList, .jnum 1)]))))
      = { runEvents cfgJ initSt [.evConnect false, .opened] with
          dataVal := some (.parsed (.jobj [("a".toList, .jnum 1)])) } :=
  (c7_json_roundtrip (.jobj [("a".toList, .jnum 1)])).2.2 cfgJ _ rfl rfl rfl

/-- C8: under the json option an inbound payload that is not valid JSON is
recovered locally: the data ref receives the raw text (the decode function is
total, so nothing is ever raised to the message path's caller). -/
theorem c8_malformed_raw (cfg : Config) (s : St) (d : List Char)
    (hj : cfg.json = true) (hl : s.wsLive = true) (ho : s.wsOpen = true)
    (hp : parseJson d = none) :
    decodeData true d = .raw d
    ∧ step cfg s (.message d) = { s with dataVal := some (.raw d) } := by
  constructor
  · simp [decodeData, hp]
  · simp [step, hl, ho, decodeData, hj, hp]

/-- C8 witness: the malformed payload "hello" while connected in json mode. -/
theorem c8_witness :
    decodeData true "hello".toList = .raw "hello".toList
    ∧ step cfgJ (runEvents cfgJ initSt [.evConnect false, .opened])
        (.message "hello".toList)
      = { runEvents cfgJ initSt [.evConnect false, .opened] with
          dataVal := some (.raw "hello".toList) } :=
  c8_malformed_raw cfgJ _ "hello".toList rfl rfl rfl rfl
